import Mathlib

/-!
Verification of the SankeyFlow layout engine (sankeyflow.py) against its
natural-language specification.

This file gives a shallow embedding, over the rationals, of the layout
engine of the sankeyflow library: the scale solver, the vertical packer,
the tree aligner, the endpoint allocator and the flow color resolver.
Python floats are modelled as rationals; Python exceptions are modelled
with the Except monad; numpy array expressions are modelled by the
corresponding list computations.  Option values that the source allows to
be a per-level sequence (the duck-typed branch of Sankey._get_opt) are
modelled in their scalar form, which is the form every claim below is
about; with scalar options Sankey._get_opt is the identity, so the level
argument is dropped.
-/

/-- Python substring containment, the expression (needle in hay). -/
def strContains (hay needle : String) : Bool :=
  (List.range (hay.length + 1)).any (fun i => needle.data.isPrefixOf (hay.data.drop i))

/-- numpy clip: min is applied after max, so clip x lo hi = min (max x lo) hi. -/
def npClip (x lo hi : ℚ) : ℚ := min (max x lo) hi

/-- An RGBA color quadruple, the result of matplotlib.colors.to_rgba. -/
structure RGBA where
  r : ℚ
  g : ℚ
  b : ℚ
  a : ℚ
deriving DecidableEq, Repr

/-- One node of the diagram, the fields of SankeyNode that the layout
engine reads or writes (label handling is rendering and is out of scope).
The inflows and outflows fields hold indices into the flow arena of the
diagram, in the order SankeyFlow.init appended them. -/
structure SankeyNode where
  x : ℚ
  y : ℚ
  width : ℚ
  height : ℚ
  name : String
  value : ℚ
  align_y : String := "top"
  color : RGBA
  flow_pad : ℚ := 0
  inflows : List ℕ := []
  outflows : List ℕ := []
deriving DecidableEq, Repr

/-- One flow of the diagram, the fields of SankeyFlow that the layout
engine reads or writes.  src and des are (level, index) positions into the
nested node list of the diagram; src_i and des_i are the ordinal positions
recorded at construction time. -/
structure SankeyFlow where
  value : ℚ
  curvature : ℚ := 3/10
  color : RGBA
  src : ℕ × ℕ
  des : ℕ × ℕ
  src_i : ℕ
  des_i : ℕ
deriving DecidableEq, Repr

/-- The mutable state of a Sankey object: the nested node list (indexed by
level, then by position inside the level) and the flat flow list. -/
structure DiagramState where
  nodes : List (List SankeyNode)
  flows : List SankeyFlow
deriving DecidableEq, Repr

def defaultRGBA : RGBA := ⟨2/3, 2/3, 2/3, 1⟩

def defaultFlowGray : RGBA := ⟨2/3, 2/3, 2/3, 1⟩

def defaultSankeyNode : SankeyNode :=
  { x := 0, y := 0, width := 0, height := 0, name := "", value := 0, color := defaultRGBA }

def defaultSankeyFlow : SankeyFlow :=
  { value := 0, color := defaultRGBA, src := (0, 0), des := (0, 0), src_i := 0, des_i := 0 }

/-- Declared node input: one entry of a level of the nodes argument of
Sankey.sankey, as (name, value) with the optional per-node option
dictionary reduced to the keys the layout reads (a color override). -/
structure NodeInput where
  name : String
  value : ℚ
  colorOpt : Option RGBA := none
deriving DecidableEq, Repr

/-- Declared flow input: one entry of the flows argument of Sankey.sankey,
as (source name, destination name, value) with the optional per-flow
option dictionary reduced to the keys the layout reads. -/
structure FlowInput where
  src : String
  des : String
  value : ℚ
  flowColorModeOpt : Option String := none
  colorOpt : Option RGBA := none
deriving DecidableEq, Repr

/-- The global configuration of a Sankey object (the scalar form of the
constructor options that the layout engine reads). -/
structure SankeyOpts where
  align_y : String := "top"
  flow_color_mode : Option String := some "dest"
  flow_color_mode_alpha : ℚ := 3/5
  node_width : ℚ := 3/100
  node_height_pad_min : ℚ := 0
  node_pad_y_min : ℚ := 1/100
  node_pad_y_max : ℚ := 1/20
  palette : List RGBA := [⟨1, 0, 0, 1⟩, ⟨0, 1, 0, 1⟩, ⟨0, 0, 1, 1⟩]
deriving DecidableEq, Repr

/-!  ## Endpoint Allocator: SankeyNode.get_flow_y  -/

/-- SankeyNode.get_flow_y.  Returns the (y_low, y_hi) position of flow i
on one side of the node.  vals is the list of the values of the flows on
that side, in list order (the Python code reads them through the flow
objects held in self.inflows or self.outflows).  The NotImplementedError
raise for an alignment without "top" is the error case. -/
def get_flow_y (n : SankeyNode) (vals : List ℚ) (i : ℕ) : Except String (ℚ × ℚ) :=
  let value_scale := n.value / (n.height - n.flow_pad * ((vals.length : ℚ) - 1))
  if n.align_y = "top overlap" ∧ vals.sum > n.value then
    let overlap := (vals.sum - n.value) / ((vals.length : ℚ) - 1) / value_scale
    let y1 := n.y + n.height - ((vals.take i).sum / value_scale + (n.flow_pad - overlap) * (i : ℚ))
    Except.ok (y1 - vals.getD i 0 / value_scale, y1)
  else if strContains n.align_y "top" then
    let y1 := n.y + n.height - ((vals.take i).sum / value_scale + n.flow_pad * (i : ℚ))
    Except.ok (y1 - vals.getD i 0 / value_scale, y1)
  else Except.error ("NotImplementedError align_y " ++ n.align_y)

/-- Height of the interval get_flow_y allocates to flow i (0 when
get_flow_y raises). -/
def allocHeight (n : SankeyNode) (vals : List ℚ) (i : ℕ) : ℚ :=
  match get_flow_y n vals i with
  | Except.ok (y0, y1) => y1 - y0
  | Except.error _ => 0

/-- Sum over all flows of one side of the allocated interval heights. -/
def allocHeightSum (n : SankeyNode) (vals : List ℚ) : ℚ :=
  ((List.range vals.length).map (allocHeight n vals)).sum

/-!  ## Scale Solver: Sankey._value_scale_level  -/

/-- The while loop of Sankey._value_scale_level: as long as some remaining
height is at or under the floor, remove those heights, add their count to
nsmall, and recompute the scale over the remaining heights with the
padding debt nsmall * floor.  fuel bounds the iteration count; the source
loop removes at least one element per pass, so fuel = length + 1 is enough
and the fuel-exhausted branch is never reached on the calls below. -/
def scaleIter (hFloor minPad : ℚ) : ℕ → List ℚ → ℚ → ℕ → ℚ
  | 0, _, scale, _ => scale
  | fuel + 1, heights, scale, nsmall =>
    let smalls := heights.filter (fun h => h / scale ≤ hFloor)
    if smalls.isEmpty then scale
    else
      let nsmall1 := nsmall + smalls.length
      let heights1 := heights.filter (fun h => ¬ h / scale ≤ hFloor)
      scaleIter hFloor minPad fuel heights1
        (heights1.sum / (1 - minPad - (nsmall1 : ℚ) * hFloor)) nsmall1

/-- Sankey._value_scale_level: the value scale such that this level ranges
exactly from y = 0 to 1 including padding.  Raises ValueError when the
requested floor padding cannot fit. -/
def value_scale_level (opts : SankeyOpts) (nodes_level : List NodeInput) : Except String ℚ :=
  let min_pad := opts.node_pad_y_min * ((nodes_level.length : ℚ) - 1)
  let heights := nodes_level.map (fun n => n.value)
  let scale := heights.sum / (1 - min_pad)
  if opts.node_height_pad_min = 0 then Except.ok scale
  else if opts.node_height_pad_min * (nodes_level.length : ℚ) + min_pad > 1 then
    Except.error ("ValueError node_height_pad_min is too large for level")
  else
    Except.ok (scaleIter opts.node_height_pad_min min_pad (heights.length + 1) heights scale 0)

/-- The scale-finding loop at the top of Sankey.sankey: the running pair is
(widest_level, value_scale), updated whenever a level has a strictly larger
scale; i is the level index of the head of the remaining list. -/
def computeScaleAux (opts : SankeyOpts) :
    List (List NodeInput) → ℕ → ℕ → ℚ → Except String (ℕ × ℚ)
  | [], _, w, s => Except.ok (w, s)
  | lvl :: rest, i, w, s => do
    let sc ← value_scale_level opts lvl
    if sc > s then computeScaleAux opts rest (i + 1) i sc
    else computeScaleAux opts rest (i + 1) w s

/-- The widest level and the diagram value scale, starting from
widest_level = 0 and value_scale = 0 as in Sankey.sankey. -/
def computeScale (opts : SankeyOpts) (levels : List (List NodeInput)) : Except String (ℕ × ℚ) :=
  computeScaleAux opts levels 0 0 0

/-!  ## Vertical Packer: Sankey._get_node_ys  -/

/-- Sankey._level_node_max_padding: the max padding usable in a level. -/
def level_node_max_padding (opts : SankeyOpts) (nodes_level : List NodeInput)
    (value_scale : ℚ) : ℚ :=
  if nodes_level.length < 2 then 0
  else
    let level_value :=
      (nodes_level.map (fun n => max (n.value / value_scale) opts.node_height_pad_min)).sum
    (1 - level_value) / ((nodes_level.length : ℚ) - 1)

/-- The general-case downward loop of Sankey._get_node_ys (the branch for
alignments other than "bottom"): walk the nodes from y downward, recording
(y_low, height) pairs, inserting extra symmetric padding around nodes whose
height is under the floor, and node_pad_y between adjacent nodes. -/
def topPass (hFloor pad scale : ℚ) : List NodeInput → ℚ → List (ℚ × ℚ)
  | [], _ => []
  | n :: rest, y =>
    let height := n.value / scale
    let y1 := y - height
    if height < hFloor then
      let y2 := y1 - (hFloor - height) / 2
      (y2, height) :: topPass hFloor pad scale rest (y2 - (hFloor - height) / 2 - pad)
    else
      (y1, height) :: topPass hFloor pad scale rest (y1 - pad)

/-- The "bottom" loop of Sankey._get_node_ys.  The source iterates the
level in reversed order inserting each entry at the front of ys, which is
the same as consing onto the accumulator here; the argument list is the
reversed level.  The branch for a node at or above the floor reads the
unbound Python name actual_height, so it raises NameError. -/
def bottomPass (hFloor pad scale : ℚ) :
    List NodeInput → ℚ → List (ℚ × ℚ) → Except String (List (ℚ × ℚ))
  | [], _, acc => Except.ok acc
  | n :: rest, y, acc =>
    let height := n.value / scale
    if height < hFloor then
      bottomPass hFloor pad scale rest (y + hFloor + pad) ((y + (hFloor - height) / 2, height) :: acc)
    else
      Except.error ("NameError name actual_height is not defined")

/-- Sankey._get_node_ys: the (y_low, height) pairs of the nodes of one
level.  Mirrors the source: padding selection, the single-node special
case for center and justify, the "bottom" branch, and the general
downward branch with the center start offset. -/
def get_node_ys (opts : SankeyOpts) (nodes_level : List NodeInput)
    (value_scale : ℚ) : Except String (List (ℚ × ℚ)) :=
  let align_y := opts.align_y
  let node_pad_y_min := opts.node_pad_y_min
  let node_pad_y_max := opts.node_pad_y_max
  let node_height_pad_min := opts.node_height_pad_min
  let max_padding := level_node_max_padding opts nodes_level value_scale
  let node_pad_y :=
    if align_y = "justify" then max_padding
    else min max_padding (max node_pad_y_max node_pad_y_min)
  if nodes_level.length = 1 ∧ (align_y = "center" ∨ align_y = "justify") then
    Except.ok (nodes_level.map (fun n =>
      ((1 - n.value / value_scale) / 2, n.value / value_scale)))
  else if align_y = "bottom" then
    bottomPass node_height_pad_min node_pad_y value_scale nodes_level.reverse 0 []
  else
    let y0 :=
      if align_y = "center" then
        1 - (max_padding - node_pad_y) * ((nodes_level.length : ℚ) - 1) / 2
      else 1
    Except.ok (topPass node_height_pad_min node_pad_y value_scale nodes_level y0)

/-!  ## Node creation pass of Sankey.sankey  -/

/-- The node creation loop body of Sankey.sankey for one level: zip the
declared nodes with the computed (y, height) pairs, create a SankeyNode for
each, warn when a declared value is negative, and advance the automatic
palette counter once per node. -/
def buildLevelNodes (opts : SankeyOpts) (level : ℕ) (nodes_level : List NodeInput)
    (ys : List (ℚ × ℚ)) (i_color : ℕ) : List SankeyNode × List String × ℕ :=
  match nodes_level, ys with
  | [], _ => ([], [], i_color)
  | _, [] => ([], [], i_color)
  | n :: rest, (y, height) :: ysRest =>
    let warn : List String :=
      if n.value < 0 then ["Warning Node has value lt 0 " ++ n.name] else []
    let autoColor := opts.palette.getD (i_color % opts.palette.length) defaultRGBA
    let node : SankeyNode :=
      { x := (level : ℚ), y := y, width := opts.node_width, height := height,
        name := n.name, value := n.value,
        color := (n.colorOpt).getD autoColor }
    let (ns, ws, ic) := buildLevelNodes opts level rest ysRest (i_color + 1)
    (node :: ns, warn ++ ws, ic)

/-- The node creation pass of Sankey.sankey over all levels: for each level
compute the (y, height) pairs with get_node_ys and build its SankeyNode
list, threading the palette counter and collecting warnings in emission
order. -/
def buildNodesAux (opts : SankeyOpts) (value_scale : ℚ) :
    List (List NodeInput) → ℕ → ℕ → Except String (List (List SankeyNode) × List String)
  | [], _, _ => Except.ok ([], [])
  | lvl :: rest, level, i_color => do
    let ys ← get_node_ys opts lvl value_scale
    let (ns, ws, ic) := buildLevelNodes opts level lvl ys i_color
    let (nss, wss) ← buildNodesAux opts value_scale rest (level + 1) ic
    Except.ok (ns :: nss, ws ++ wss)

/-- The whole node creation pass, from level 0 and palette counter 0. -/
def buildNodes (opts : SankeyOpts) (levels : List (List NodeInput)) (value_scale : ℚ) :
    Except String (List (List SankeyNode) × List String) :=
  buildNodesAux opts value_scale levels 0 0

/-!  ## Flow creation pass of Sankey.sankey  -/

/-- Sankey.find_node restricted to the position it finds: the index of
the first node of the level with the given name. -/
def findInLevel (lvl : List SankeyNode) (name : String) : Option ℕ :=
  match lvl with
  | [] => none
  | n :: rest =>
    if n.name = name then some 0 else (findInLevel rest name).map (fun i => i + 1)

/-- Position part of Sankey.find_node over the nested node list. -/
def find_node_pos (nodes : List (List SankeyNode)) (name : String) : Option (ℕ × ℕ) :=
  match nodes with
  | [] => none
  | lvl :: rest =>
    match findInLevel lvl name with
    | some i => some (0, i)
    | none => (find_node_pos rest name).map (fun p => (p.1 + 1, p.2))

/-- The node stored at a (level, index) position. -/
def nodeAt (st : DiagramState) (p : ℕ × ℕ) : SankeyNode :=
  (st.nodes.getD p.1 []).getD p.2 defaultSankeyNode

/-- The auto color block of Sankey.sankey.  The mode string is checked by
Python substring containment; the mode None makes the Python expression
(x in flow_color_mode) raise TypeError, which is the error case here. -/
def resolveFlowColor (mode : Option String) (src des : SankeyNode) : Except String RGBA :=
  match mode with
  | none => Except.error ("TypeError argument of type NoneType is not iterable")
  | some m =>
    if strContains m "dest" then Except.ok des.color
    else if strContains m "source" then Except.ok src.color
    else if strContains m "lesser" then
      Except.ok (if src.value < des.value then src.color else des.color)
    else if strContains m "greater" then
      Except.ok (if src.value > des.value then src.color else des.color)
    else Except.ok defaultFlowGray

/-- The alpha multiplication applied to the resolved flow color:
color = (rgb, alpha channel times flow_color_mode_alpha). -/
def applyAlpha (c : RGBA) (alpha : ℚ) : RGBA :=
  { c with a := c.a * alpha }

/-- Replace the node at position (lv, i) of a nested node list by f of it;
out of range positions leave the list unchanged (they never occur on the
calls below, which use positions returned by find_node_pos). -/
def updateNode (nodes : List (List SankeyNode)) (lv i : ℕ) (f : SankeyNode → SankeyNode) :
    List (List SankeyNode) :=
  nodes.set lv ((nodes.getD lv []).set i (f ((nodes.getD lv []).getD i defaultSankeyNode)))

/-- The body of the flow creation loop of Sankey.sankey for one declared
flow: find both endpoint nodes (KeyError when missing), warn on a bad
weight, raise ValueError on a non-forward flow, resolve the flow color
(with the per-flow mode override), multiply its alpha, and construct the
SankeyFlow, which appends itself to the outflow list of its source and the
inflow list of its destination recording its ordinal positions there. -/
def processOneFlow (opts : SankeyOpts) (st : DiagramState) (f : FlowInput) :
    Except String (DiagramState × List String) := do
  let some srcPos := find_node_pos st.nodes f.src
    | Except.error ("KeyError Bad flow - could not find source node " ++ f.src)
  let some desPos := find_node_pos st.nodes f.des
    | Except.error ("KeyError Bad flow - could not find destination node " ++ f.des)
  let srcNode := nodeAt st srcPos
  let desNode := nodeAt st desPos
  let warns : List String :=
    if f.value > srcNode.value ∨ f.value > desNode.value ∨ f.value < 0 then
      ["Warning Bad flow - bad weight " ++ f.src ++ " " ++ f.des]
    else []
  if desPos.1 ≤ srcPos.1 then
    Except.error ("ValueError Bad flow - flow is backwards " ++ f.src ++ " " ++ f.des)
  else
    let mode := match f.flowColorModeOpt with
      | some m => some m
      | none => opts.flow_color_mode
    let color0 ← resolveFlowColor mode srcNode desNode
    let autoColor := applyAlpha color0 opts.flow_color_mode_alpha
    let k := st.flows.length
    let flow : SankeyFlow :=
      { value := f.value, color := (f.colorOpt).getD autoColor,
        src := srcPos, des := desPos,
        src_i := srcNode.outflows.length, des_i := desNode.inflows.length }
    let nodes1 := updateNode st.nodes srcPos.1 srcPos.2
      (fun n => { n with outflows := n.outflows ++ [k] })
    let nodes2 := updateNode nodes1 desPos.1 desPos.2
      (fun n => { n with inflows := n.inflows ++ [k] })
    Except.ok ({ nodes := nodes2, flows := st.flows ++ [flow] }, warns)

/-- The flow creation loop of Sankey.sankey over the declared flow list,
accumulating the printed warnings in emission order. -/
def processFlows (opts : SankeyOpts) (st : DiagramState) :
    List FlowInput → Except String (DiagramState × List String)
  | [] => Except.ok (st, [])
  | f :: rest => do
    let (st1, ws) ← processOneFlow opts st f
    let (st2, wss) ← processFlows opts st1 rest
    Except.ok (st2, ws ++ wss)

/-!  ## Tree Aligner: Sankey._layout_tree and Sankey._layout_tree_level  -/

/-- The values of the flows on one side of a node, read through the flow
arena (side is true for inflows). -/
def sideVals (st : DiagramState) (n : SankeyNode) (inSide : Bool) : List ℚ :=
  (if inSide then n.inflows else n.outflows).map
    (fun j => (st.flows.getD j defaultSankeyFlow).value)

/-- One term of the ideal-position loop of Sankey._layout_tree_level: for
flow j anchored at the far endpoint, the pair (ideal y clipped to the
axis, flow value).  node0 is the node being positioned with its y set to 0
as in the source, so its own get_flow_y result is the position of the flow
inside the node. -/
def treeIdealTerm (st : DiagramState) (right : Bool) (node0 : SankeyNode) (j : ℕ) :
    Except String (ℚ × ℚ) := do
  let flow := st.flows.getD j defaultSankeyFlow
  let yAnchor ← (
    if right then
      let srcNode := nodeAt st flow.src
      (get_flow_y srcNode (sideVals st srcNode false) flow.src_i).map (fun p => p.1)
    else
      let desNode := nodeAt st flow.des
      (get_flow_y desNode (sideVals st desNode true) flow.des_i).map (fun p => p.1))
  let yFlowNode ← (
    if right then (get_flow_y node0 (sideVals st node0 true) flow.des_i).map (fun p => p.1)
    else (get_flow_y node0 (sideVals st node0 false) flow.src_i).map (fun p => p.1))
  Except.ok (npClip (yAnchor - yFlowNode) 0 1, flow.value)

/-- The ideal position entry of one node: the weighted average of the
clipped ideal positions of its anchor-side flows, as (y_ideal, has_stress);
a node with total weight 0 keeps y_ideal 0 and has_stress false,
matching the np.zeros and np.ones initializations of the source. -/
def treeIdealNode (st : DiagramState) (right : Bool) (node : SankeyNode) :
    Except String (ℚ × Bool) := do
  let node0 := { node with y := 0 }
  let idxs := if right then node.inflows else node.outflows
  let terms ← idxs.mapM (treeIdealTerm st right node0)
  let totalYs := (terms.map (fun t => t.1 * t.2)).sum
  let totalWeights := (terms.map (fun t => t.2)).sum
  if totalWeights > 0 then Except.ok (totalYs / totalWeights, true)
  else Except.ok (0, false)

/-- The maximum-height positions y_max of Sankey._layout_tree_level: each
node packed tightly from the top under the floor and minimum padding
rules. -/
def treeYMax (hFloor padMin : ℚ) : List SankeyNode → ℚ → List ℚ
  | [], _ => []
  | n :: rest, y =>
    if n.height < hFloor then
      (y - (hFloor + n.height) / 2) :: treeYMax hFloor padMin rest (y - (hFloor + padMin))
    else
      (y - n.height) :: treeYMax hFloor padMin rest (y - (n.height + padMin))

/-- The reversed-cumulative average of the source written directly on
suffixes: entry i is the sum of the stresses from i on, divided by the
number of stressed nodes from i on (at least 1), which is what
(np.cumsum(y_stress reversed) / np.maximum(1, np.cumsum(has_stress
reversed))) reversed computes. -/
def suffixAverage (stress : List ℚ) (has : List Bool) : List ℚ :=
  (List.range stress.length).map (fun i =>
    (stress.drop i).sum / max 1 (((has.drop i).countP id : ℕ) : ℚ))

/-- np.maximum.accumulate: the running maximum of a list. -/
def runningMaxAux (m : ℚ) : List ℚ → List ℚ
  | [] => []
  | x :: xs => max m x :: runningMaxAux (max m x) xs

/-- np.maximum.accumulate with the first entry kept as is. -/
def runningMax : List ℚ → List ℚ
  | [] => []
  | x :: xs => x :: runningMaxAux x xs

/-- The final assignment loop of Sankey._layout_tree_level: zip the level
nodes with their new positions, each assigned node taking its y from the
list; nodes beyond the position list keep their current y, as the Python
zip leaves them unassigned. -/
def setYs : List SankeyNode → List ℚ → List SankeyNode
  | [], _ => []
  | ns, [] => ns
  | n :: ns, y :: ys => { n with y := y } :: setYs ns ys

/-- The stress computation of Sankey._layout_tree_level: the ideal
positions of the nodes of one level, their maximum (tightly packed)
positions, the selfishness-averaged stresses, the clamp for the
"tree-clamp" variant and the running maximum, producing the list of new
y positions of the level nodes. -/
def treeShifts (opts : SankeyOpts) (st : DiagramState) (right : Bool)
    (nodes_level : List SankeyNode) : Except String (List ℚ) := do
  let align_y := opts.align_y
  let node_pad_y_min := opts.node_pad_y_min
  let node_height_pad_min := opts.node_height_pad_min
  let ideals ← nodes_level.mapM (treeIdealNode st right)
  let yMax := treeYMax node_height_pad_min node_pad_y_min nodes_level 1
  let yFlex ← match yMax.getLast? with
    | some v => Except.ok v
    | none => Except.error ("IndexError index -1 is out of bounds")
  let yStress := List.zipWith (fun ym t => (ym - t.1) * (if t.2 then (1 : ℚ) else 0)) yMax ideals
  let hasList := ideals.map (fun t => t.2)
  let avgStress := suffixAverage yStress hasList
  let yDesired0 := List.zipWith min yStress avgStress
  let yDesired :=
    if strContains align_y "clamp" then yDesired0.map (fun v => npClip v 0 yFlex)
    else yDesired0
  let yShift := runningMax yDesired
  Except.ok (List.zipWith (fun ym sh => ym - sh) yMax yShift)

/-- Sankey._layout_tree_level: compute the new y positions of the nodes of
one level with treeShifts and assign them, leaving every other field and
every other level unchanged.  right tells whether this level is right of
the widest level (anchoring on inflows) or left of it (anchoring on
outflows).  The map setting y to 0 is the node.y = 0 assignment the
source makes while computing the ideal positions; every position is then
overwritten from the computed list. -/
def layout_tree_level (opts : SankeyOpts) (st : DiagramState) (level : ℕ) (right : Bool) :
    Except String DiagramState := do
  let nodes_level := st.nodes.getD level []
  let yNew ← treeShifts opts st right nodes_level
  let zeroed := nodes_level.map (fun n => { n with y := 0 })
  Except.ok { st with nodes := st.nodes.set level (setYs zeroed yNew) }

/-- Sankey._layout_tree: starting from the widest level, process the
levels to its right left-to-right anchoring on inflows, then the levels to
its left right-to-left anchoring on outflows. -/
def layout_tree (opts : SankeyOpts) (st : DiagramState) (max_level : ℕ) :
    Except String DiagramState := do
  let st1 ← (List.range' (max_level + 1) (st.nodes.length - (max_level + 1))).foldlM
    (fun s l => layout_tree_level opts s l true) st
  (List.range max_level).reverse.foldlM
    (fun s l => layout_tree_level opts s l false) st1

/-!  ## List helper lemmas  -/

theorem listGetD_set (l : List α) (i j : ℕ) (a d : α) :
    (l.set i a).getD j d = if i = j ∧ j < l.length then a else l.getD j d := by
  induction l generalizing i j with
  | nil => simp [List.set]
  | cons x xs ih =>
    cases i with
    | zero =>
      cases j with
      | zero => simp [List.set]
      | succ j => simp [List.set, List.getD]
    | succ i =>
      cases j with
      | zero => simp [List.set, List.getD]
      | succ j =>
        simp only [List.set, List.getD_cons_succ, List.length_cons, ih]
        have : (i = j ∧ j < xs.length) ↔ (i + 1 = j + 1 ∧ j + 1 < xs.length + 1) := by omega
        rw [if_congr this rfl rfl]

theorem listGetD_set_apply (l : List α) (i j : ℕ) (a d : α) :
    (l.set i a).getD j d = if i = j ∧ j < l.length then a else l.getD j d :=
  listGetD_set l i j a d

theorem filter_length_partition (p : α → Bool) (l : List α) :
    (l.filter p).length + (l.filter (fun x => !(p x))).length = l.length := by
  induction l with
  | nil => rfl
  | cons x xs ih =>
    by_cases h : p x = true
    · simp [List.filter, h, ih]
      omega
    · simp only [Bool.not_eq_true] at h
      simp [List.filter, h, ih]
      omega

theorem filter_sum_partition (p : ℚ → Bool) (l : List ℚ) :
    (l.filter p).sum + (l.filter (fun x => !(p x))).sum = l.sum := by
  induction l with
  | nil => simp
  | cons x xs ih =>
    by_cases h : p x = true
    · simp [List.filter, h]
      linarith [ih]
    · simp only [Bool.not_eq_true] at h
      simp [List.filter, h]
      linarith [ih]

theorem sum_le_length_mul (l : List ℚ) (c : ℚ) (h : ∀ x ∈ l, x ≤ c) :
    l.sum ≤ (l.length : ℚ) * c := by
  induction l with
  | nil => simp
  | cons x xs ih =>
    have hx := h x (List.mem_cons_self x xs)
    have hxs := ih (fun y hy => h y (List.mem_cons_of_mem x hy))
    simp only [List.sum_cons, List.length_cons]
    push_cast
    linarith

theorem sum_pos_of_mem_pos (l : List ℚ) (hne : l ≠ []) (h : ∀ x ∈ l, 0 < x) :
    0 < l.sum := by
  induction l with
  | nil => exact absurd rfl hne
  | cons x xs ih =>
    have hx := h x (List.mem_cons_self x xs)
    rcases List.eq_nil_or_concat xs with h0 | _
    · cases xs with
      | nil => simpa using hx
      | cons y ys => simp at h0
    · cases xs with
      | nil => simpa using hx
      | cons y ys =>
        have := ih (by simp) (fun z hz => h z (List.mem_cons_of_mem x hz))
        simp only [List.sum_cons] at this ⊢
        linarith

theorem map_const_sum (l : List ℚ) (g : ℚ → ℚ) (c : ℚ) (h : ∀ x ∈ l, g x = c) :
    (l.map g).sum = (l.length : ℚ) * c := by
  induction l with
  | nil => simp
  | cons x xs ih =>
    have hx := h x (List.mem_cons_self x xs)
    have hxs := ih (fun y hy => h y (List.mem_cons_of_mem x hy))
    simp only [List.map_cons, List.sum_cons, List.length_cons, hx, hxs]
    push_cast
    ring

theorem range_map_getD (l : List ℚ) :
    (List.range l.length).map (fun i => l.getD i 0) = l := by
  induction l with
  | nil => simp
  | cons x xs ih =>
    rw [List.length_cons, List.range_succ_eq_map, List.map_cons, List.map_map]
    simp only [List.getD_cons_zero]
    have hmap : List.map ((fun i => (x :: xs).getD i 0) ∘ Nat.succ) (List.range xs.length)
        = List.map (fun i => xs.getD i 0) (List.range xs.length) :=
      List.map_congr_left (fun i _ => by simp [Function.comp])
    rw [hmap, ih]

theorem take_sum_succ (l : List ℚ) (i : ℕ) (h : i < l.length) :
    (l.take (i + 1)).sum = (l.take i).sum + l.getD i 0 := by
  rw [List.take_succ, List.sum_append]
  have : l[i]? = some l[i] := List.getElem?_eq_getElem h
  rw [this]
  simp [List.getD_eq_getElem?_getD, this]

/-!  ## Vertical Packer structure lemmas  -/

/-- The extra symmetric padding the packer puts on each side of a node
whose drawn height is under the floor. -/
def underMargin (hFloor h : ℚ) : ℚ := if h < hFloor then (hFloor - h) / 2 else 0

/-- The vertical footprint a node consumes in the packer: its height plus
the two under-floor margins, which is max of height and floor. -/
def levelFootSum (hFloor scale : ℚ) (nodes : List NodeInput) : ℚ :=
  (nodes.map (fun n => max (n.value / scale) hFloor)).sum

theorem footprint_eq (hFloor h : ℚ) : h + 2 * underMargin hFloor h = max h hFloor := by
  unfold underMargin
  by_cases hlt : h < hFloor
  · rw [if_pos hlt, max_eq_right (le_of_lt hlt)]
    ring
  · rw [if_neg hlt, max_eq_left (le_of_not_lt hlt)]
    ring

theorem topPass_length (hFloor pad scale : ℚ) (nodes : List NodeInput) (y : ℚ) :
    (topPass hFloor pad scale nodes y).length = nodes.length := by
  induction nodes generalizing y with
  | nil => rfl
  | cons n rest ih =>
    unfold topPass
    by_cases h : n.value / scale < hFloor
    · simp only [h, if_pos, List.length_cons, ih]
    · simp only [h, if_neg, List.length_cons, ih]
      simp [ih]

theorem topPass_map_snd (hFloor pad scale : ℚ) (nodes : List NodeInput) (y : ℚ) :
    (topPass hFloor pad scale nodes y).map Prod.snd
      = nodes.map (fun n => n.value / scale) := by
  induction nodes generalizing y with
  | nil => rfl
  | cons n rest ih =>
    unfold topPass
    by_cases h : n.value / scale < hFloor
    · simp only [if_pos h, List.map_cons, ih]
    · simp only [if_neg h, List.map_cons, ih]

theorem topPass_head (hFloor pad scale : ℚ) (n : NodeInput) (rest : List NodeInput) (y : ℚ) :
    ∃ e rest2, topPass hFloor pad scale (n :: rest) y = e :: rest2
      ∧ e.1 + e.2 + underMargin hFloor e.2 = y := by
  unfold topPass underMargin
  by_cases h : n.value / scale < hFloor
  · refine ⟨_, _, by rw [if_pos h], ?_⟩
    simp only [if_pos h]
    ring
  · refine ⟨_, _, by rw [if_neg h], ?_⟩
    simp only [if_neg h]
    ring

theorem getLast?_cons_ne_nil (a : α) (l : List α) (h : l ≠ []) :
    (a :: l).getLast? = l.getLast? := by
  cases l with
  | nil => exact absurd rfl h
  | cons b t => exact List.getLast?_cons_cons

theorem topPass_last (hFloor pad scale : ℚ) :
    ∀ (nodes : List NodeInput) (y : ℚ), nodes ≠ [] →
    ∃ e, (topPass hFloor pad scale nodes y).getLast? = some e
      ∧ e.1 - underMargin hFloor e.2
        = y - levelFootSum hFloor scale nodes - ((nodes.length : ℚ) - 1) * pad := by
  intro nodes
  induction nodes with
  | nil => intro y h; exact absurd rfl h
  | cons n rest ih =>
    intro y _
    cases rest with
    | nil =>
      by_cases h : n.value / scale < hFloor
      · refine ⟨(y - n.value / scale - (hFloor - n.value / scale) / 2, n.value / scale),
          ?_, ?_⟩
        · unfold topPass
          rw [if_pos h]
          rfl
        · unfold levelFootSum underMargin
          simp only [if_pos h, List.map_cons, List.map_nil, List.sum_cons, List.sum_nil,
            List.length_cons, List.length_nil, max_eq_right (le_of_lt h)]
          push_cast
          ring
      · refine ⟨(y - n.value / scale, n.value / scale), ?_, ?_⟩
        · unfold topPass
          rw [if_neg h]
          rfl
        · unfold levelFootSum underMargin
          simp only [if_neg h, List.map_cons, List.map_nil, List.sum_cons, List.sum_nil,
            List.length_cons, List.length_nil, max_eq_left (le_of_not_lt h)]
          push_cast
          ring
    | cons m rest2 =>
      have hne : (m :: rest2) ≠ ([] : List NodeInput) := by simp
      by_cases h : n.value / scale < hFloor
      · obtain ⟨e, hlast, hval⟩ :=
          ih (y - n.value / scale - (hFloor - n.value / scale) / 2
                - (hFloor - n.value / scale) / 2 - pad) hne
        refine ⟨e, ?_, ?_⟩
        · unfold topPass
          rw [if_pos h,
            getLast?_cons_ne_nil _ _ (by
              have := topPass_length hFloor pad scale (m :: rest2)
                (y - n.value / scale - (hFloor - n.value / scale) / 2
                  - (hFloor - n.value / scale) / 2 - pad)
              intro hnil
              rw [hnil] at this
              simp at this)]
          exact hlast
        · rw [hval]
          unfold levelFootSum
          simp only [List.map_cons, List.sum_cons, List.length_cons,
            max_eq_right (le_of_lt h)]
          push_cast
          ring
      · obtain ⟨e, hlast, hval⟩ := ih (y - n.value / scale - pad) hne
        refine ⟨e, ?_, ?_⟩
        · unfold topPass
          rw [if_neg h,
            getLast?_cons_ne_nil _ _ (by
              have := topPass_length hFloor pad scale (m :: rest2) (y - n.value / scale - pad)
              intro hnil
              rw [hnil] at this
              simp at this)]
          exact hlast
        · rw [hval]
          unfold levelFootSum
          simp only [List.map_cons, List.sum_cons, List.length_cons,
            max_eq_left (le_of_not_lt h)]
          push_cast
          ring

/-!  ## Scale Solver invariant  -/

theorem sum_map_div (l : List ℚ) (c : ℚ) :
    (l.map (fun h => h / c)).sum = l.sum / c := by
  induction l with
  | nil => simp
  | cons x xs ih =>
    simp only [List.map_cons, List.sum_cons, ih]
    ring

theorem filter_map_sum_partition (p : α → Bool) (g : α → ℚ) (l : List α) :
    ((l.filter p).map g).sum + ((l.filter (fun x => !(p x))).map g).sum = (l.map g).sum := by
  induction l with
  | nil => simp
  | cons x xs ih =>
    by_cases h : p x = true
    · simp [List.filter, h]
      linarith [ih]
    · simp only [Bool.not_eq_true] at h
      simp [List.filter, h]
      linarith [ih]

theorem scaleIter_spec (hFloor minPad : ℚ) (hf : 0 < hFloor) (N : ℕ)
    (hN : (N : ℚ) * hFloor + minPad < 1) :
    ∀ (fuel : ℕ) (heights : List ℚ) (scale : ℚ) (nsmall : ℕ),
      heights.length + nsmall = N →
      (∀ h ∈ heights, 0 < h) →
      heights ≠ [] →
      scale = heights.sum / (1 - minPad - (nsmall : ℚ) * hFloor) →
      heights.length < fuel →
      scale ≤ scaleIter hFloor minPad fuel heights scale nsmall
      ∧ 0 < scaleIter hFloor minPad fuel heights scale nsmall
      ∧ (heights.map
          (fun h => max (h / scaleIter hFloor minPad fuel heights scale nsmall) hFloor)).sum
          = 1 - minPad - (nsmall : ℚ) * hFloor := by
  intro fuel
  induction fuel with
  | zero =>
    intro heights scale nsmall _ _ _ _ hfuel
    exact absurd hfuel (by omega)
  | succ f ih =>
    intro heights scale nsmall hlen hpos hne hscale hfuel
    have hlen1 : 1 ≤ heights.length := by
      cases heights with
      | nil => exact absurd rfl hne
      | cons a l => simp
    have hD : ((heights.length : ℚ)) * hFloor < 1 - minPad - (nsmall : ℚ) * hFloor := by
      have hcast : ((N : ℚ)) = (heights.length : ℚ) + (nsmall : ℚ) := by
        rw [← hlen]
        push_cast
        ring
      nlinarith [hN, hcast]
    have hD0 : 0 < 1 - minPad - (nsmall : ℚ) * hFloor := by
      have : (1 : ℚ) ≤ (heights.length : ℚ) := by exact_mod_cast hlen1
      nlinarith
    have hsum : 0 < heights.sum := sum_pos_of_mem_pos heights hne hpos
    have hscalePos : 0 < scale := by
      rw [hscale]
      exact div_pos hsum hD0
    have hsD : scale * (1 - minPad - (nsmall : ℚ) * hFloor) = heights.sum := by
      rw [hscale]
      field_simp
    by_cases hsm : (heights.filter (fun h => decide (h / scale ≤ hFloor))).isEmpty = true
    · -- no small nodes: the loop stops and returns scale
      have hres : scaleIter hFloor minPad (f + 1) heights scale nsmall = scale := by
        simp only [scaleIter]
        rw [if_pos hsm]
      rw [hres]
      refine ⟨le_refl scale, hscalePos, ?_⟩
      have hall : ∀ h ∈ heights, ¬ (h / scale ≤ hFloor) := by
        intro h hmem
        have := List.isEmpty_iff.mp hsm
        intro hle
        have : h ∈ heights.filter (fun h => decide (h / scale ≤ hFloor)) :=
          List.mem_filter.mpr ⟨hmem, by simpa using hle⟩
        rw [List.isEmpty_iff.mp hsm] at this
        simp at this
      have hmax : ∀ h ∈ heights, max (h / scale) hFloor = h / scale := by
        intro h hmem
        exact max_eq_left (le_of_lt (lt_of_not_le (hall h hmem)))
      have hmapeq : heights.map (fun h => max (h / scale) hFloor)
          = heights.map (fun h => h / scale) :=
        List.map_congr_left (fun h hmem => hmax h hmem)
      rw [hmapeq, sum_map_div, ← hsD]
      field_simp
    · -- some small nodes: one removal pass, then the induction hypothesis
      have hfun : (fun h : ℚ => decide (¬ h / scale ≤ hFloor))
          = (fun h : ℚ => !(decide (h / scale ≤ hFloor))) := by
        funext h
        exact decide_not
      set removed := heights.filter (fun h => decide (h / scale ≤ hFloor)) with hremdef
      set keep := heights.filter (fun h => decide (¬ h / scale ≤ hFloor)) with hkeepdef
      have hkeepalt : keep = heights.filter (fun h => !(decide (h / scale ≤ hFloor))) := by
        rw [hkeepdef, hfun]
      have hremne : removed ≠ [] := by
        intro hnil
        rw [hnil] at hsm
        exact hsm rfl
      have hremlen1 : 1 ≤ removed.length := by
        cases hr : removed with
        | nil => exact absurd hr hremne
        | cons a l => simp
      have hpart_len : keep.length + removed.length = heights.length := by
        rw [hkeepalt, hremdef]
        have := filter_length_partition (fun h : ℚ => decide (h / scale ≤ hFloor)) heights
        omega
      have hpart_sum : removed.sum + keep.sum = heights.sum := by
        rw [hkeepalt, hremdef]
        have := filter_map_sum_partition (fun h : ℚ => decide (h / scale ≤ hFloor)) id heights
        simpa using this
      have hrem_le : ∀ h ∈ removed, h ≤ scale * hFloor := by
        intro h hmem
        rw [hremdef] at hmem
        have := (List.mem_filter.mp hmem).2
        have hle : h / scale ≤ hFloor := by simpa using this
        exact (div_le_iff₀ hscalePos).mp hle |>.trans_eq (by ring)
      have hremsum : removed.sum ≤ (removed.length : ℚ) * (scale * hFloor) :=
        sum_le_length_mul removed (scale * hFloor) hrem_le
      have hkeepne : keep ≠ [] := by
        intro hnil
        have hallsm : ∀ h ∈ heights, h ≤ scale * hFloor := by
          intro h hmem
          by_cases hc : h / scale ≤ hFloor
          · exact (div_le_iff₀ hscalePos).mp hc |>.trans_eq (by ring)
          · exfalso
            have : h ∈ keep := by
              rw [hkeepdef]
              exact List.mem_filter.mpr ⟨hmem, by simpa using hc⟩
            rw [hnil] at this
            simp at this
        have hsb : heights.sum ≤ (heights.length : ℚ) * (scale * hFloor) :=
          sum_le_length_mul heights (scale * hFloor) hallsm
        rw [← hsD] at hsb
        have : 1 - minPad - (nsmall : ℚ) * hFloor ≤ (heights.length : ℚ) * hFloor := by
          nlinarith
        linarith
      have hkeeplen1 : 1 ≤ keep.length := by
        cases hk : keep with
        | nil => exact absurd hk hkeepne
        | cons a l => simp
      have hres : scaleIter hFloor minPad (f + 1) heights scale nsmall
          = scaleIter hFloor minPad f keep
              (keep.sum / (1 - minPad - ((nsmall + removed.length : ℕ) : ℚ) * hFloor))
              (nsmall + removed.length) := by
        simp only [scaleIter]
        rw [if_neg hsm]
      have hD1 : 1 - minPad - ((nsmall + removed.length : ℕ) : ℚ) * hFloor
          = (1 - minPad - (nsmall : ℚ) * hFloor) - (removed.length : ℚ) * hFloor := by
        push_cast
        ring
      have hkeeplenN : keep.length + (nsmall + removed.length) = N := by omega
      have hD1gt : ((keep.length : ℚ)) * hFloor
          < 1 - minPad - ((nsmall + removed.length : ℕ) : ℚ) * hFloor := by
        have hcast : ((N : ℚ)) = (keep.length : ℚ) + ((nsmall + removed.length : ℕ) : ℚ) := by
          rw [← hkeeplenN]
          push_cast
          ring
        nlinarith [hN, hcast]
      have hD1pos : 0 < 1 - minPad - ((nsmall + removed.length : ℕ) : ℚ) * hFloor := by
        have : (1 : ℚ) ≤ (keep.length : ℚ) := by exact_mod_cast hkeeplen1
        nlinarith
      have hkeeppos : ∀ h ∈ keep, 0 < h := by
        intro h hmem
        rw [hkeepdef] at hmem
        exact hpos h (List.mem_filter.mp hmem).1
      have hkeepsum : 0 < keep.sum := sum_pos_of_mem_pos keep hkeepne hkeeppos
      set scale1 := keep.sum / (1 - minPad - ((nsmall + removed.length : ℕ) : ℚ) * hFloor)
        with hscale1
      have hscale1pos : 0 < scale1 := div_pos hkeepsum hD1pos
      have hmono : scale ≤ scale1 := by
        rw [hscale1, le_div_iff₀ hD1pos]
        have hks : keep.sum = heights.sum - removed.sum := by linarith
        rw [hks, ← hsD, hD1]
        nlinarith
      have ihres := ih keep scale1 (nsmall + removed.length) hkeeplenN hkeeppos hkeepne
        hscale1 (by omega)
      obtain ⟨ih1, ih2, ih3⟩ := ihres
      rw [hres]
      refine ⟨le_trans hmono ih1, ih2, ?_⟩
      set s2 := scaleIter hFloor minPad f keep scale1 (nsmall + removed.length) with hs2
      clear_value s2
      have hscale_le : scale ≤ s2 := le_trans hmono ih1
      have hrem_max : ∀ h ∈ removed, max (h / s2) hFloor = hFloor := by
        intro h hmem
        have hh := hrem_le h hmem
        have h1 : scale * hFloor ≤ s2 * hFloor :=
          mul_le_mul_of_nonneg_right hscale_le (le_of_lt hf)
        have h2 : h / s2 ≤ hFloor := (div_le_iff₀ ih2).mpr (by
          rw [mul_comm]
          exact le_trans hh h1)
        exact max_eq_right h2
      have hsplit := filter_map_sum_partition (fun h : ℚ => decide (h / scale ≤ hFloor))
        (fun h => max (h / s2) hFloor) heights
      rw [← hremdef, ← hkeepalt] at hsplit
      have hremc : (removed.map (fun h => max (h / s2) hFloor)).sum
          = (removed.length : ℚ) * hFloor :=
        map_const_sum removed (fun h => max (h / s2) hFloor) hFloor hrem_max
      have : (heights.map (fun h => max (h / s2) hFloor)).sum
          = (removed.length : ℚ) * hFloor
            + (1 - minPad - ((nsmall + removed.length : ℕ) : ℚ) * hFloor) := by
        rw [← hsplit, hremc, ih3]
      rw [this, hD1]
      ring

theorem value_scale_level_spec (opts : SankeyOpts) (nodes : List NodeInput)
    (hne : nodes ≠ [])
    (hpos : ∀ n ∈ nodes, 0 < n.value)
    (hfloor : 0 ≤ opts.node_height_pad_min)
    (hfeas : (nodes.length : ℚ) * opts.node_height_pad_min
        + opts.node_pad_y_min * ((nodes.length : ℚ) - 1) < 1) :
    ∃ s, value_scale_level opts nodes = Except.ok s ∧ 0 < s
      ∧ levelFootSum opts.node_height_pad_min s nodes
          = 1 - opts.node_pad_y_min * ((nodes.length : ℚ) - 1) := by
  have hmapne : nodes.map (fun n => n.value) ≠ [] := by
    cases nodes with
    | nil => exact absurd rfl hne
    | cons a l => simp
  have hmappos : ∀ h ∈ nodes.map (fun n => n.value), 0 < h := by
    intro h hmem
    obtain ⟨n, hn, rfl⟩ := List.mem_map.mp hmem
    exact hpos n hn
  have hsumpos : 0 < (nodes.map (fun n => n.value)).sum :=
    sum_pos_of_mem_pos _ hmapne hmappos
  have hcomp : ∀ (s : ℚ), levelFootSum opts.node_height_pad_min s nodes
      = ((nodes.map (fun n => n.value)).map
          (fun h => max (h / s) opts.node_height_pad_min)).sum := by
    intro s
    unfold levelFootSum
    rw [List.map_map]
    rfl
  by_cases hz : opts.node_height_pad_min = 0
  · -- early return branch: no floor
    have hmp : 0 ≤ opts.node_pad_y_min * ((nodes.length : ℚ) - 1) ∨ True := Or.inr trivial
    have hlt1 : opts.node_pad_y_min * ((nodes.length : ℚ) - 1) < 1 := by
      rw [hz] at hfeas
      simpa using hfeas
    have hden : 0 < 1 - opts.node_pad_y_min * ((nodes.length : ℚ) - 1) := by linarith
    refine ⟨(nodes.map (fun n => n.value)).sum
        / (1 - opts.node_pad_y_min * ((nodes.length : ℚ) - 1)), ?_, ?_, ?_⟩
    · unfold value_scale_level
      rw [if_pos hz]
    · exact div_pos hsumpos hden
    · set s := (nodes.map (fun n => n.value)).sum
        / (1 - opts.node_pad_y_min * ((nodes.length : ℚ) - 1)) with hs
      have hspos : 0 < s := div_pos hsumpos hden
      rw [hcomp s, hz]
      have hmax : ∀ h ∈ nodes.map (fun n => n.value), max (h / s) 0 = h / s := by
        intro h hmem
        exact max_eq_left (le_of_lt (div_pos (hmappos h hmem) hspos))
      rw [List.map_congr_left hmax, sum_map_div, hs]
      field_simp
  · -- floor branch: the removal loop
    have hfpos : 0 < opts.node_height_pad_min := lt_of_le_of_ne hfloor (Ne.symm hz)
    have hcheck : ¬ (opts.node_height_pad_min * (nodes.length : ℚ)
        + opts.node_pad_y_min * ((nodes.length : ℚ) - 1) > 1) := by
      rw [mul_comm]
      linarith
    have hlen : (nodes.map (fun n => n.value)).length + 0 = nodes.length := by simp
    have hN : ((nodes.length : ℚ)) * opts.node_height_pad_min
        + opts.node_pad_y_min * ((nodes.length : ℚ) - 1) < 1 := hfeas
    obtain ⟨h1, h2, h3⟩ := scaleIter_spec opts.node_height_pad_min
      (opts.node_pad_y_min * ((nodes.length : ℚ) - 1)) hfpos nodes.length hN
      ((nodes.map (fun n => n.value)).length + 1)
      (nodes.map (fun n => n.value))
      ((nodes.map (fun n => n.value)).sum
        / (1 - opts.node_pad_y_min * ((nodes.length : ℚ) - 1)))
      0 hlen hmappos hmapne (by push_cast; ring_nf) (by omega)
    refine ⟨_, ?_, h2, ?_⟩
    · unfold value_scale_level
      rw [if_neg hz, if_neg hcheck]
    · rw [hcomp]
      rw [h3]
      push_cast
      ring


theorem computeScaleAux_spec (opts : SankeyOpts) :
    ∀ (levels : List (List NodeInput)) (i w : ℕ) (s : ℚ) (w2 : ℕ) (s2 : ℚ),
      computeScaleAux opts levels i w s = Except.ok (w2, s2) →
      s ≤ s2
      ∧ (∀ lvl ∈ levels, ∀ c, value_scale_level opts lvl = Except.ok c → c ≤ s2)
      ∧ ((w2 = w ∧ s2 = s) ∨ (∃ j, j < levels.length ∧ w2 = i + j
            ∧ value_scale_level opts (levels.getD j []) = Except.ok s2)) := by
  intro levels
  induction levels with
  | nil =>
    intro i w s w2 s2 h
    simp only [computeScaleAux] at h
    cases h
    exact ⟨le_refl s, by simp, Or.inl ⟨rfl, rfl⟩⟩
  | cons lvl rest ih =>
    intro i w s w2 s2 h
    simp only [computeScaleAux] at h
    cases hv : value_scale_level opts lvl with
    | error e =>
      rw [hv] at h
      change Except.error e = Except.ok (w2, s2) at h
      exact Except.noConfusion h
    | ok c =>
      rw [hv] at h
      change (if s < c then computeScaleAux opts rest (i + 1) i c
        else computeScaleAux opts rest (i + 1) w s) = Except.ok (w2, s2) at h
      by_cases hc : s < c
      · rw [if_pos hc] at h
        obtain ⟨ih1, ih2, ih3⟩ := ih (i + 1) i c w2 s2 h
        refine ⟨le_trans (le_of_lt hc) ih1, ?_, ?_⟩
        · intro lvl2 hmem c2 hc2
          rcases List.mem_cons.mp hmem with rfl | hmem2
          · rw [hv] at hc2
            cases hc2
            exact ih1
          · exact ih2 lvl2 hmem2 c2 hc2
        · rcases ih3 with ⟨hw, hs⟩ | ⟨j, hj, hw, hval⟩
          · refine Or.inr ⟨0, by simp, by omega, ?_⟩
            simp only [List.getD_cons_zero]
            rw [hs]
            exact hv
          · exact Or.inr ⟨j + 1, by simpa using hj, by omega, by simpa using hval⟩
      · rw [if_neg hc] at h
        obtain ⟨ih1, ih2, ih3⟩ := ih (i + 1) w s w2 s2 h
        refine ⟨ih1, ?_, ?_⟩
        · intro lvl2 hmem c2 hc2
          rcases List.mem_cons.mp hmem with rfl | hmem2
          · rw [hv] at hc2
            cases hc2
            exact le_trans (le_of_not_lt hc) ih1
          · exact ih2 lvl2 hmem2 c2 hc2
        · rcases ih3 with ⟨hw, hs⟩ | ⟨j, hj, hw, hval⟩
          · exact Or.inl ⟨hw, hs⟩
          · exact Or.inr ⟨j + 1, by simpa using hj, by omega, by simpa using hval⟩

theorem get_node_ys_top (opts : SankeyOpts) (nodes : List NodeInput) (scale : ℚ)
    (halign : opts.align_y = "top") :
    get_node_ys opts nodes scale
      = Except.ok (topPass opts.node_height_pad_min
          (min (level_node_max_padding opts nodes scale)
            (max opts.node_pad_y_max opts.node_pad_y_min)) scale nodes 1) := by
  unfold get_node_ys
  rw [halign]
  rw [if_neg (by simp)]
  rw [if_neg (by simp)]
  rw [if_neg (by simp)]
  rw [if_neg (by simp)]

theorem get_node_ys_justify (opts : SankeyOpts) (nodes : List NodeInput) (scale : ℚ)
    (halign : opts.align_y = "justify") (hlen : 2 ≤ nodes.length) :
    get_node_ys opts nodes scale
      = Except.ok (topPass opts.node_height_pad_min
          (level_node_max_padding opts nodes scale) scale nodes 1) := by
  have hne1 : nodes.length ≠ 1 := by omega
  simp [get_node_ys, halign, hne1]

/-- C3: Scale Solver correctness.  Each level candidate scale is the sum
of node values over (1 minus min padding fraction times (count minus 1))
(the iterative under-floor removal is the scaleIter loop, and with no
floor the formula is returned directly, first conjunct); the diagram scale
returned by the scale-finding loop is an upper bound of every level
candidate (second conjunct); and the widest level, packed under its top
alignment at that scale, spans exactly the axis from 1 at the top edge of
its first node to 0 at the bottom edge of its last node, padding and
under-floor margins included (third conjunct). -/
theorem claim_C3 (opts : SankeyOpts) (levels : List (List NodeInput)) (w : ℕ) (s : ℚ)
    (hcs : computeScale opts levels = Except.ok (w, s))
    (halign : opts.align_y = "top")
    (hpmin : 0 ≤ opts.node_pad_y_min)
    (hpmax : opts.node_pad_y_min ≤ opts.node_pad_y_max)
    (hfl : 0 ≤ opts.node_height_pad_min) :
    (∀ lvl, opts.node_height_pad_min = 0 →
      value_scale_level opts lvl
        = Except.ok ((lvl.map (fun n => n.value)).sum
            / (1 - opts.node_pad_y_min * ((lvl.length : ℚ) - 1))))
    ∧ (∀ lvl ∈ levels, ∀ c, value_scale_level opts lvl = Except.ok c → c ≤ s)
    ∧ ((levels.getD w []) ≠ [] →
       (∀ n ∈ levels.getD w [], 0 < n.value) →
       (((levels.getD w []).length : ℚ) * opts.node_height_pad_min
          + opts.node_pad_y_min * (((levels.getD w []).length : ℚ) - 1) < 1) →
       value_scale_level opts (levels.getD w []) = Except.ok s
       ∧ 0 < s
       ∧ ∃ ys, get_node_ys opts (levels.getD w []) s = Except.ok ys
           ∧ (∃ e1, ys.head? = some e1
               ∧ e1.1 + e1.2 + underMargin opts.node_height_pad_min e1.2 = 1)
           ∧ (∃ e2, ys.getLast? = some e2
               ∧ e2.1 - underMargin opts.node_height_pad_min e2.2 = 0)) := by
  obtain ⟨hs0, hub, halt⟩ := computeScaleAux_spec opts levels 0 0 0 w s hcs
  refine ⟨?_, hub, ?_⟩
  · intro lvl hz
    simp [value_scale_level, hz]
  · intro hne hpos hfeas
    obtain ⟨c, hvc, hcpos, hfoot⟩ :=
      value_scale_level_spec opts (levels.getD w []) hne hpos hfl hfeas
    have hwlt : w < levels.length := by
      by_contra hw
      exact hne (List.getD_eq_default levels [] (by omega))
    have hmem : levels.getD w [] ∈ levels := by
      rw [List.getD_eq_getElem levels [] hwlt]
      exact List.getElem_mem hwlt
    have hcs2 : c ≤ s := hub _ hmem c hvc
    have hseq : value_scale_level opts (levels.getD w []) = Except.ok s := by
      rcases halt with ⟨_, hs0'⟩ | ⟨j, hj, hw0, hvj⟩
      · exfalso
        rw [hs0'] at hcs2
        linarith
      · have : j = w := by omega
        rw [this] at hvj
        exact hvj
    have hceq : c = s := by
      rw [hseq] at hvc
      cases hvc
      rfl
    subst hceq
    refine ⟨hseq, hcpos, ?_⟩
    set L := levels.getD w [] with hL
    set F := opts.node_height_pad_min with hF
    set pad := min (level_node_max_padding opts L c)
      (max opts.node_pad_y_max opts.node_pad_y_min) with hpaddef
    refine ⟨topPass F pad c L 1, ?_, ?_, ?_⟩
    · rw [get_node_ys_top opts L c halign]
    · -- head entry: top edge at 1
      cases hLc : L with
      | nil => exact absurd hLc hne
      | cons n rest =>
        obtain ⟨e, rest2, heq, hedge⟩ := topPass_head F pad c n rest 1
        refine ⟨e, ?_, hedge⟩
        rw [heq]
        rfl
    · -- last entry: bottom edge at 0
      obtain ⟨e, hlast, hedge⟩ := topPass_last F pad c L 1 hne
      refine ⟨e, hlast, ?_⟩
      rw [hedge]
      have hpadeq : ((L.length : ℚ) - 1) * pad
          = opts.node_pad_y_min * ((L.length : ℚ) - 1) := by
        have hlen1 : 1 ≤ L.length := by
          cases hLc : L with
          | nil => exact absurd hLc hne
          | cons a l => simp
        by_cases h2 : 2 ≤ L.length
        · have hden : ((L.length : ℚ) - 1) ≠ 0 := by
            have : (2 : ℚ) ≤ (L.length : ℚ) := by exact_mod_cast h2
            intro hcon
            nlinarith
          have hmp : level_node_max_padding opts L c = opts.node_pad_y_min := by
            unfold level_node_max_padding
            rw [if_neg (by omega)]
            have hfs : (L.map (fun n => max (n.value / c) opts.node_height_pad_min)).sum
                = 1 - opts.node_pad_y_min * ((L.length : ℚ) - 1) := hfoot
            rw [hfs, div_eq_iff hden]
            ring
          have hpadv : pad = opts.node_pad_y_min := by
            rw [hpaddef, hmp]
            exact min_eq_left (le_max_right _ _)
          rw [hpadv]
          ring
        · have hmp : level_node_max_padding opts L c = 0 := by
            unfold level_node_max_padding
            rw [if_pos (by omega)]
          have hpadv : pad = 0 := by
            rw [hpaddef, hmp]
            exact min_eq_left (le_trans (le_trans hpmin hpmax) (le_max_left _ _))
          have hlen_eq : L.length = 1 := by omega
          rw [hpadv, hlen_eq]
          push_cast
          ring
      linarith [hfoot, hpadeq]

theorem except_bind_ok (v : α) (f : α → Except ε β) :
    (Except.ok v : Except ε α) >>= f = f v := rfl

theorem except_bind_error (e : ε) (f : α → Except ε β) :
    (Except.error e : Except ε α) >>= f = Except.error e := rfl

/-- Witness configuration for the scale solver claim: default paddings, no
height floor, top alignment. -/
def optsW3 : SankeyOpts := { align_y := "top" }

/-- Witness diagram for the scale solver claim: a one-node level of value
2 and a two-node level of values 1 and 1, whose padded candidate scale
200/99 is the diagram maximum. -/
def levelsW3 : List (List NodeInput) :=
  [[{ name := "a", value := 2 }],
   [{ name := "b", value := 1 }, { name := "c", value := 1 }]]

theorem claim_C3_witness :
    computeScale optsW3 levelsW3 = Except.ok (1, 200/99)
    ∧ (value_scale_level optsW3 (levelsW3.getD 1 []) = Except.ok (200/99)
       ∧ (0 : ℚ) < 200/99
       ∧ ∃ ys, get_node_ys optsW3 (levelsW3.getD 1 []) (200/99) = Except.ok ys
           ∧ (∃ e1, ys.head? = some e1
               ∧ e1.1 + e1.2 + underMargin optsW3.node_height_pad_min e1.2 = 1)
           ∧ (∃ e2, ys.getLast? = some e2
               ∧ e2.1 - underMargin optsW3.node_height_pad_min e2.2 = 0)) := by
  have hcs : computeScale optsW3 levelsW3 = Except.ok (1, 200/99) := by
    norm_num [computeScale, computeScaleAux, value_scale_level, except_bind_ok,
      optsW3, levelsW3]
  refine ⟨hcs, ?_⟩
  exact (claim_C3 optsW3 levelsW3 1 (200/99) hcs rfl (by norm_num [optsW3])
      (by norm_num [optsW3]) (by norm_num [optsW3])).2.2
    (by simp [levelsW3]) (by
      intro n hn
      simp only [levelsW3, List.getD_cons_succ, List.getD_cons_zero] at hn
      rcases List.mem_cons.mp hn with rfl | hn2
      · norm_num
      · rcases List.mem_cons.mp hn2 with rfl | hn3
        · norm_num
        · simp at hn3)
    (by norm_num [levelsW3, optsW3])

/-!  ## Endpoint Allocator lemmas  -/

theorem strContains_top_top : strContains "top" "top" = true := by decide

theorem get_flow_y_top (n : SankeyNode) (vals : List ℚ) (i : ℕ)
    (halign : n.align_y = "top") :
    get_flow_y n vals i = Except.ok
      (n.y + n.height
        - ((vals.take i).sum / (n.value / (n.height - n.flow_pad * ((vals.length : ℚ) - 1)))
            + n.flow_pad * (i : ℚ))
        - vals.getD i 0 / (n.value / (n.height - n.flow_pad * ((vals.length : ℚ) - 1))),
       n.y + n.height
        - ((vals.take i).sum / (n.value / (n.height - n.flow_pad * ((vals.length : ℚ) - 1)))
            + n.flow_pad * (i : ℚ))) := by
  unfold get_flow_y
  rw [halign]
  rw [if_neg (by simp)]
  rw [if_pos strContains_top_top]

theorem allocHeight_top (n : SankeyNode) (vals : List ℚ) (i : ℕ)
    (halign : n.align_y = "top") :
    allocHeight n vals i
      = vals.getD i 0 / (n.value / (n.height - n.flow_pad * ((vals.length : ℚ) - 1))) := by
  unfold allocHeight
  rw [get_flow_y_top n vals i halign]
  ring

/-- C1 (amended): Endpoint Allocator correctness.  For a node aligned
"top" with the flow values vals on one side, get_flow_y uses the value
scale V / (H - flow_pad * (N - 1)), places the interval top of flow i at
node top minus (sum of earlier values / scale + i * flow_pad) and its
bottom one allocated height below (first conjunct, exactly the formulas of
the spec); and when the side values sum to the node value (and the node
value and the scale denominator are nonzero) the allocated heights plus
the inter-flow padding sum exactly to the drawn node height (second
conjunct).  Without the side-sum condition the tiling equality fails, see
the counterexample. -/
theorem claim_C1 (n : SankeyNode) (vals : List ℚ) (halign : n.align_y = "top") :
    (∀ i, i < vals.length →
      get_flow_y n vals i = Except.ok
        (n.y + n.height
          - ((vals.take i).sum / (n.value / (n.height - n.flow_pad * ((vals.length : ℚ) - 1)))
              + n.flow_pad * (i : ℚ))
          - vals.getD i 0 / (n.value / (n.height - n.flow_pad * ((vals.length : ℚ) - 1))),
         n.y + n.height
          - ((vals.take i).sum / (n.value / (n.height - n.flow_pad * ((vals.length : ℚ) - 1)))
              + n.flow_pad * (i : ℚ))))
    ∧ (vals.sum = n.value → n.value ≠ 0 →
       n.height - n.flow_pad * ((vals.length : ℚ) - 1) ≠ 0 →
       allocHeightSum n vals + n.flow_pad * ((vals.length : ℚ) - 1) = n.height) := by
  constructor
  · intro i _
    exact get_flow_y_top n vals i halign
  · intro hsum hv hden
    unfold allocHeightSum
    have hm : (List.range vals.length).map (allocHeight n vals)
        = (List.range vals.length).map (fun i => vals.getD i 0
            / (n.value / (n.height - n.flow_pad * ((vals.length : ℚ) - 1)))) :=
      List.map_congr_left (fun i _ => allocHeight_top n vals i halign)
    rw [hm]
    have hm2 : (List.range vals.length).map (fun i => vals.getD i 0
          / (n.value / (n.height - n.flow_pad * ((vals.length : ℚ) - 1))))
        = ((List.range vals.length).map (fun i => vals.getD i 0)).map
            (fun v => v / (n.value / (n.height - n.flow_pad * ((vals.length : ℚ) - 1)))) := by
      rw [List.map_map]
      rfl
    rw [hm2, range_map_getD, sum_map_div, hsum]
    rw [div_div_eq_mul_div, mul_div_right_comm, div_self hv, one_mul]
    ring

/-- Witness node for the Endpoint Allocator claim: value 10, height 1,
two flows of values 4 and 6 which sum to the node value. -/
def nodeW1 : SankeyNode :=
  { x := 0, y := 0, width := 3/100, height := 1, name := "A", value := 10,
    color := defaultRGBA }

theorem claim_C1_witness :
    nodeW1.align_y = "top"
    ∧ ([(4 : ℚ), 6].sum = nodeW1.value ∧ nodeW1.value ≠ 0
        ∧ nodeW1.height - nodeW1.flow_pad * ((([(4 : ℚ), 6]).length : ℚ) - 1) ≠ 0)
    ∧ allocHeightSum nodeW1 [4, 6]
        + nodeW1.flow_pad * ((([(4 : ℚ), 6]).length : ℚ) - 1) = nodeW1.height := by
  refine ⟨rfl, ⟨by norm_num [nodeW1], by norm_num [nodeW1], by norm_num [nodeW1]⟩, ?_⟩
  exact (claim_C1 nodeW1 [4, 6] rfl).2 (by norm_num [nodeW1]) (by norm_num [nodeW1])
    (by norm_num [nodeW1])

/-- C1 counterexample: a node of value 10 and height 1 with a single flow
of value 5 on one side.  The allocated heights plus padding sum to 1/2,
not to the drawn height 1: the unconditional tiling sentence of the claim
is false when the side flow values do not sum to the node value. -/
theorem claim_C1_counterexample :
    allocHeightSum nodeW1 [5] + nodeW1.flow_pad * ((([(5 : ℚ)]).length : ℚ) - 1)
      ≠ nodeW1.height := by
  have h : allocHeight nodeW1 [5] 0 = 1/2 := by
    rw [allocHeight_top nodeW1 [5] 0 rfl]
    norm_num [nodeW1]
  have h2 : allocHeightSum nodeW1 [5] = 1/2 := by
    unfold allocHeightSum
    rw [show List.range ([(5 : ℚ)]).length = [0] from rfl, List.map_cons, List.map_nil, h]
    norm_num
  rw [h2]
  norm_num [nodeW1]

/-- C4 (amended): for every level with at least two nodes laid out under
"justify" alignment, the node footprints (height plus under-floor
symmetric padding) plus the stretched inter-node padding sum exactly to
1, and the packed level spans exactly the axis: the top edge of the first
node is 1 and the bottom edge of the last node is 0.  A single-node
justify level is special-cased to centering and does not fill the axis,
see the counterexample. -/
theorem claim_C4 (opts : SankeyOpts) (nodes : List NodeInput) (scale : ℚ)
    (halign : opts.align_y = "justify") (hlen : 2 ≤ nodes.length) :
    ∃ ys, get_node_ys opts nodes scale = Except.ok ys
      ∧ levelFootSum opts.node_height_pad_min scale nodes
          + level_node_max_padding opts nodes scale * ((nodes.length : ℚ) - 1) = 1
      ∧ (∃ e1, ys.head? = some e1
          ∧ e1.1 + e1.2 + underMargin opts.node_height_pad_min e1.2 = 1)
      ∧ (∃ e2, ys.getLast? = some e2
          ∧ e2.1 - underMargin opts.node_height_pad_min e2.2 = 0) := by
  have hden : ((nodes.length : ℚ) - 1) ≠ 0 := by
    have : (2 : ℚ) ≤ (nodes.length : ℚ) := by exact_mod_cast hlen
    intro hcon
    nlinarith
  have hmp : level_node_max_padding opts nodes scale * ((nodes.length : ℚ) - 1)
      = 1 - levelFootSum opts.node_height_pad_min scale nodes := by
    unfold level_node_max_padding levelFootSum
    rw [if_neg (by omega)]
    field_simp
  have hne : nodes ≠ [] := by
    cases nodes with
    | nil => simp at hlen
    | cons a l => simp
  refine ⟨topPass opts.node_height_pad_min (level_node_max_padding opts nodes scale)
      scale nodes 1, get_node_ys_justify opts nodes scale halign hlen, by linarith, ?_, ?_⟩
  · cases hc : nodes with
    | nil => exact absurd hc hne
    | cons n rest =>
      obtain ⟨e, rest2, heq, hedge⟩ := topPass_head opts.node_height_pad_min
        (level_node_max_padding opts (n :: rest) scale) scale n rest 1
      refine ⟨e, ?_, hedge⟩
      rw [heq]
      rfl
  · obtain ⟨e, hlast, hedge⟩ := topPass_last opts.node_height_pad_min
      (level_node_max_padding opts nodes scale) scale nodes 1 hne
    refine ⟨e, hlast, ?_⟩
    rw [hedge]
    linarith

theorem claim_C4_witness :
    (({ align_y := "justify" } : SankeyOpts)).align_y = "justify"
    ∧ 2 ≤ ([{ name := "b", value := (1 : ℚ) }, { name := "c", value := 1 }]
        : List NodeInput).length
    ∧ ∃ ys, get_node_ys { align_y := "justify" }
          [{ name := "b", value := (1 : ℚ) }, { name := "c", value := 1 }] 4 = Except.ok ys
        ∧ levelFootSum ({ align_y := "justify" } : SankeyOpts).node_height_pad_min 4
            [{ name := "b", value := (1 : ℚ) }, { name := "c", value := 1 }]
          + level_node_max_padding { align_y := "justify" }
              [{ name := "b", value := (1 : ℚ) }, { name := "c", value := 1 }] 4
            * ((([{ name := "b", value := (1 : ℚ) }, { name := "c", value := 1 }]
                : List NodeInput).length : ℚ) - 1) = 1
        ∧ (∃ e1, ys.head? = some e1
            ∧ e1.1 + e1.2 + underMargin
                ({ align_y := "justify" } : SankeyOpts).node_height_pad_min e1.2 = 1)
        ∧ (∃ e2, ys.getLast? = some e2
            ∧ e2.1 - underMargin
                ({ align_y := "justify" } : SankeyOpts).node_height_pad_min e2.2 = 0) :=
  ⟨rfl, by norm_num,
    claim_C4 { align_y := "justify" }
      [{ name := "b", value := (1 : ℚ) }, { name := "c", value := 1 }] 4 rfl (by norm_num)⟩

/-- C4 counterexample: a single-node level of value 1 under "justify" at
value scale 2 is centered as (1/4, 1/2): the node height sum is 1/2 and no
inter-node padding exists, so heights plus applied padding is 1/2, not 1.
The claim is false for single-node justify levels. -/
theorem claim_C4_counterexample :
    get_node_ys { align_y := "justify" } [{ name := "a", value := 1 }] 2
      = Except.ok [((1 : ℚ)/4, (1 : ℚ)/2)]
    ∧ (([((1 : ℚ)/4, (1 : ℚ)/2)]).map Prod.snd).sum ≠ 1 := by
  constructor
  · norm_num [get_node_ys, level_node_max_padding]
  · norm_num

/-- C2: the "bottom" branch of _get_node_ys is broken in the source.  Its
else branch (taken whenever a node height is at or above the floor, hence
always with the default floor 0) increments y by the unbound Python name
actual_height, raising NameError, so a bottom layout of even a one-node
level aborts instead of mirroring the top layout.  This theorem evaluates
the embedded code at that failing input. -/
theorem claim_C2 :
    get_node_ys { align_y := "bottom" } [{ name := "a", value := 1 }] 1
      = Except.error ("NameError name actual_height is not defined") := by
  norm_num [get_node_ys, level_node_max_padding, bottomPass]
  rintro (h | h) <;> simp at h

/-!  ## Tree Aligner frame lemmas  -/

theorem setYs_eraseY (ns : List SankeyNode) (ys : List ℚ) :
    (setYs ns ys).map (fun n => { n with y := 0 })
      = ns.map (fun n => { n with y := 0 }) := by
  induction ns generalizing ys with
  | nil => cases ys <;> rfl
  | cons n rest ih =>
    cases ys with
    | nil => rfl
    | cons y ys2 =>
      simp only [setYs, List.map_cons]
      rw [ih]

theorem zeroed_eraseY (ns : List SankeyNode) :
    ((ns.map (fun n => { n with y := 0 })).map (fun n => { n with y := 0 }))
      = ns.map (fun n => { n with y := 0 }) := by
  rw [List.map_map]
  rfl


theorem layout_tree_level_frame (opts : SankeyOpts) (st : DiagramState) (level : ℕ)
    (right : Bool) (st2 : DiagramState)
    (h : layout_tree_level opts st level right = Except.ok st2) :
    st2.flows = st.flows
    ∧ st2.nodes.length = st.nodes.length
    ∧ (∀ l, (st2.nodes.getD l []).map (fun n => { n with y := 0 })
        = (st.nodes.getD l []).map (fun n => { n with y := 0 }))
    ∧ (∀ l, l ≠ level → st2.nodes.getD l [] = st.nodes.getD l []) := by
  simp only [layout_tree_level] at h
  cases hs : treeShifts opts st right (st.nodes.getD level []) with
  | error e =>
    rw [hs, except_bind_error] at h
    exact Except.noConfusion h
  | ok yNew =>
    rw [hs, except_bind_ok] at h
    injection h with h2
    subst h2
    refine ⟨rfl, List.length_set st.nodes level _, ?_, ?_⟩
    · intro l
      show ((st.nodes.set level (setYs ((st.nodes.getD level []).map
          (fun n => { n with y := 0 })) yNew)).getD l []).map (fun n => { n with y := 0 })
        = (st.nodes.getD l []).map (fun n => { n with y := 0 })
      rw [listGetD_set]
      by_cases hc : level = l ∧ l < st.nodes.length
      · rw [if_pos hc, setYs_eraseY, zeroed_eraseY, hc.1]
      · rw [if_neg hc]
    · intro l hl
      show (st.nodes.set level (setYs ((st.nodes.getD level []).map
          (fun n => { n with y := 0 })) yNew)).getD l [] = st.nodes.getD l []
      rw [listGetD_set, if_neg (by intro hcon; exact hl hcon.1.symm)]

theorem tree_fold_frame (opts : SankeyOpts) (right : Bool) (m : ℕ) :
    ∀ (ls : List ℕ) (st st2 : DiagramState),
      (∀ l ∈ ls, l ≠ m) →
      ls.foldlM (fun s l => layout_tree_level opts s l right) st = Except.ok st2 →
      st2.flows = st.flows
      ∧ st2.nodes.length = st.nodes.length
      ∧ (∀ l, (st2.nodes.getD l []).map (fun n => { n with y := 0 })
          = (st.nodes.getD l []).map (fun n => { n with y := 0 }))
      ∧ st2.nodes.getD m [] = st.nodes.getD m [] := by
  intro ls
  induction ls with
  | nil =>
    intro st st2 _ h
    simp only [List.foldlM] at h
    injection h with h2
    subst h2
    exact ⟨rfl, rfl, fun _ => rfl, rfl⟩
  | cons a rest ih =>
    intro st st2 hnm h
    simp only [List.foldlM] at h
    cases hstep : layout_tree_level opts st a right with
    | error e =>
      rw [hstep, except_bind_error] at h
      exact Except.noConfusion h
    | ok st1 =>
      rw [hstep, except_bind_ok] at h
      obtain ⟨f1, l1, m1, g1⟩ := layout_tree_level_frame opts st a right st1 hstep
      obtain ⟨f2, l2, m2, g2⟩ := ih st1 st2 (fun l hl => hnm l (List.mem_cons_of_mem a hl)) h
      refine ⟨f2.trans f1, l2.trans l1, fun l => (m2 l).trans (m1 l), ?_⟩
      rw [g2, g1 m (fun hcon => hnm a (List.mem_cons_self a rest) hcon.symm)]

/-- C6: the tree aligner is a pure vertical-offset adjustment.  For any
state on which _layout_tree returns, the flow arena is untouched, the
number of levels and, levelwise, the node count, order and every node
field other than the vertical offset y (level x, width, height, name,
value, alignment, color, flow_pad and both flow lists) are unchanged:
setting y to 0 on both sides gives equal levels.  The widest (reference)
level max_level is never processed, so its nodes keep exactly the offsets
the vertical packer gave them. -/
theorem claim_C6 (opts : SankeyOpts) (st : DiagramState) (max_level : ℕ)
    (st2 : DiagramState) (h : layout_tree opts st max_level = Except.ok st2) :
    st2.flows = st.flows
    ∧ st2.nodes.length = st.nodes.length
    ∧ (∀ l, (st2.nodes.getD l []).map (fun n => { n with y := 0 })
        = (st.nodes.getD l []).map (fun n => { n with y := 0 }))
    ∧ st2.nodes.getD max_level [] = st.nodes.getD max_level [] := by
  simp only [layout_tree] at h
  cases h1 : (List.range' (max_level + 1) (st.nodes.length - (max_level + 1))).foldlM
      (fun s l => layout_tree_level opts s l true) st with
  | error e =>
    rw [h1, except_bind_error] at h
    exact Except.noConfusion h
  | ok st1 =>
    rw [h1, except_bind_ok] at h
    have hm1 : ∀ l ∈ List.range' (max_level + 1) (st.nodes.length - (max_level + 1)),
        l ≠ max_level := by
      intro l hl
      have := List.mem_range'_1.mp hl
      omega
    have hm2 : ∀ l ∈ (List.range max_level).reverse, l ≠ max_level := by
      intro l hl
      have := List.mem_range.mp (List.mem_reverse.mp hl)
      omega
    obtain ⟨f1, l1, m1, g1⟩ := tree_fold_frame opts true max_level _ st st1 hm1 h1
    obtain ⟨f2, l2, m2, g2⟩ := tree_fold_frame opts false max_level _ st1 st2 hm2 h
    exact ⟨f2.trans f1, l2.trans l1, fun l => (m2 l).trans (m1 l), g2.trans g1⟩

theorem except_pure_eq (v : α) : (pure v : Except ε α) = Except.ok v := rfl

theorem strContains_tree_clamp : strContains "tree" "clamp" = false := by decide

/-- Witness fixture: node A of the witness diagram for the tree aligner. -/
def nodeWA : SankeyNode :=
  { x := 0, y := 0, width := 3/100, height := 1, name := "A", value := 1,
    color := defaultRGBA }

/-- Witness fixture: node B of the witness diagram for the tree aligner. -/
def nodeWB : SankeyNode :=
  { x := 1, y := 0, width := 3/100, height := 1, name := "B", value := 1,
    color := defaultRGBA }

/-- Witness configuration with plain tree alignment. -/
def optsW6 : SankeyOpts := { align_y := "tree" }

/-- Witness diagram state: two one-node levels already packed. -/
def stW6 : DiagramState := { nodes := [[nodeWA], [nodeWB]], flows := [] }

theorem claim_C6_witness :
    layout_tree optsW6 stW6 0 = Except.ok stW6
    ∧ (stW6.flows = stW6.flows
       ∧ stW6.nodes.length = stW6.nodes.length
       ∧ (∀ l, (stW6.nodes.getD l []).map (fun n => { n with y := 0 })
           = (stW6.nodes.getD l []).map (fun n => { n with y := 0 }))
       ∧ stW6.nodes.getD 0 [] = stW6.nodes.getD 0 []) := by
  have h1 : treeIdealNode stW6 true nodeWB = Except.ok (0, false) := by
    norm_num [treeIdealNode, nodeWB, List.mapM_nil, List.mapM.loop, except_pure_eq,
      except_bind_ok]
  have hBh : nodeWB.height = 1 := rfl
  have h2 : treeShifts optsW6 stW6 true [nodeWB] = Except.ok [0] := by
    norm_num [treeShifts, h1, List.mapM_cons, List.mapM_nil, List.mapM.loop,
      except_pure_eq, except_bind_ok, treeYMax, hBh, optsW6, suffixAverage, runningMax,
      runningMaxAux, strContains_tree_clamp, List.countP_cons,
      List.countP_nil, show List.range 1 = [0] from rfl]
  have h3 : layout_tree_level optsW6 stW6 1 true = Except.ok stW6 := by
    have hg : stW6.nodes.getD 1 [] = [nodeWB] := rfl
    simp only [layout_tree_level, hg]
    rw [h2, except_bind_ok]
    simp [setYs, stW6, nodeWB, List.set]
  have hok : layout_tree optsW6 stW6 0 = Except.ok stW6 := by
    simp only [layout_tree]
    have hr : List.range' (0 + 1) (stW6.nodes.length - (0 + 1)) = [1] := rfl
    rw [hr]
    simp only [List.foldlM]
    rw [h3, except_bind_ok]
    simp [except_pure_eq, except_bind_ok]
  exact ⟨hok, claim_C6 optsW6 stW6 0 stW6 hok⟩

/-!  ## Color Resolver claims  -/

theorem strContains_lesser_dest : strContains "lesser" "dest" = false := by decide

theorem strContains_lesser_source : strContains "lesser" "source" = false := by decide

theorem strContains_lesser_lesser : strContains "lesser" "lesser" = true := by decide

theorem strContains_greater_dest : strContains "greater" "dest" = false := by decide

theorem strContains_greater_source : strContains "greater" "source" = false := by decide

theorem strContains_greater_lesser : strContains "greater" "lesser" = false := by decide

theorem strContains_greater_greater : strContains "greater" "greater" = true := by decide

/-- C10: when the two endpoint values are exactly equal, both the
"lesser" and the "greater" flow color modes resolve to the destination
node color: the source branch of each conditional expression requires a
strict inequality, so ties take the else branch, which is the destination
color. -/
theorem claim_C10 (src des : SankeyNode) (h : src.value = des.value) :
    resolveFlowColor (some "lesser") src des = Except.ok des.color
    ∧ resolveFlowColor (some "greater") src des = Except.ok des.color := by
  constructor
  · simp [resolveFlowColor, strContains_lesser_dest, strContains_lesser_source,
      strContains_lesser_lesser, h, lt_self_iff_false]
  · simp [resolveFlowColor, strContains_greater_dest, strContains_greater_source,
      strContains_greater_lesser, strContains_greater_greater, h, lt_self_iff_false]

/-- Witness fixture: a red source node of value 1. -/
def nodeW10a : SankeyNode :=
  { x := 0, y := 0, width := 3/100, height := 1, name := "A", value := 1,
    color := ⟨1, 0, 0, 1⟩ }

/-- Witness fixture: a green destination node of the same value 1. -/
def nodeW10b : SankeyNode :=
  { x := 1, y := 0, width := 3/100, height := 1, name := "B", value := 1,
    color := ⟨0, 1, 0, 1⟩ }

theorem claim_C10_witness :
    nodeW10a.value = nodeW10b.value
    ∧ resolveFlowColor (some "lesser") nodeW10a nodeW10b = Except.ok ⟨0, 1, 0, 1⟩
    ∧ resolveFlowColor (some "greater") nodeW10a nodeW10b = Except.ok ⟨0, 1, 0, 1⟩ := by
  have h : nodeW10a.value = nodeW10b.value := rfl
  obtain ⟨h1, h2⟩ := claim_C10 nodeW10a nodeW10b h
  exact ⟨h, h1, h2⟩

/-- C8: evaluating the flow creation pass with the documented flat-default
mode None.  The source guards each mode with a Python substring test
(x in flow_color_mode); with flow_color_mode None this expression raises
TypeError (argument of type NoneType is not iterable), so the layout
aborts on a perfectly well-formed forward flow instead of using the flat
default color, contradicting the docstring of Sankey.init which lists
None among the supported modes. -/
theorem claim_C8 :
    processFlows { flow_color_mode := none } stW6 [{ src := "A", des := "B", value := 1 }]
      = Except.error ("TypeError argument of type NoneType is not iterable") := by
  have hA : find_node_pos stW6.nodes "A" = some (0, 0) := by decide
  have hB : find_node_pos stW6.nodes "B" = some (1, 0) := by decide
  have hna : nodeAt stW6 (0, 0) = nodeWA := rfl
  have hnb : nodeAt stW6 (1, 0) = nodeWB := rfl
  norm_num [processFlows, processOneFlow, hA, hB, hna, hnb, resolveFlowColor,
    except_bind_ok, except_bind_error, nodeWA, nodeWB]

/-!  ## Flow creation pass lemmas  -/

/-- The identity and value of a node, the parts of a node the flow loop
reads through find_node: appending to the flow lists never changes it. -/
def nodeKey (n : SankeyNode) : String × ℚ := (n.name, n.value)

theorem findInLevel_congr (l1 l2 : List SankeyNode)
    (h : l1.map nodeKey = l2.map nodeKey) (nm : String) :
    findInLevel l1 nm = findInLevel l2 nm := by
  induction l1 generalizing l2 with
  | nil =>
    cases l2 with
    | nil => rfl
    | cons b t => simp at h
  | cons a t ih =>
    cases l2 with
    | nil => simp at h
    | cons b t2 =>
      simp only [List.map_cons, List.cons.injEq] at h
      have hname : a.name = b.name := congrArg Prod.fst h.1
      simp only [findInLevel, hname, ih t2 h.2]

theorem find_node_pos_congr (nodes1 nodes2 : List (List SankeyNode))
    (h : nodes1.map (fun l => l.map nodeKey) = nodes2.map (fun l => l.map nodeKey))
    (nm : String) :
    find_node_pos nodes1 nm = find_node_pos nodes2 nm := by
  induction nodes1 generalizing nodes2 with
  | nil =>
    cases nodes2 with
    | nil => rfl
    | cons b t => simp at h
  | cons a t ih =>
    cases nodes2 with
    | nil => simp at h
    | cons b t2 =>
      simp only [List.map_cons, List.cons.injEq] at h
      simp only [find_node_pos, findInLevel_congr a b h.1 nm, ih t2 h.2]

theorem findInLevel_lt (lvl : List SankeyNode) (nm : String) (i : ℕ)
    (h : findInLevel lvl nm = some i) : i < lvl.length := by
  induction lvl generalizing i with
  | nil => exact Option.noConfusion h
  | cons a t ih =>
    simp only [findInLevel] at h
    by_cases hn : a.name = nm
    · rw [if_pos hn] at h
      injection h with h2
      subst h2
      simp
    · rw [if_neg hn] at h
      cases hf : findInLevel t nm with
      | none => rw [hf] at h; simp at h
      | some j =>
        rw [hf] at h
        have h2 : j + 1 = i := by simpa using h
        have h3 := ih j hf
        simp only [List.length_cons]
        omega

theorem find_node_pos_lt (nodes : List (List SankeyNode)) (nm : String) (p : ℕ × ℕ)
    (h : find_node_pos nodes nm = some p) :
    p.1 < nodes.length ∧ p.2 < (nodes.getD p.1 []).length := by
  induction nodes generalizing p with
  | nil => simp [find_node_pos] at h
  | cons a t ih =>
    simp only [find_node_pos] at h
    cases hf : findInLevel a nm with
    | some i =>
      rw [hf] at h
      injection h with h2
      subst h2
      exact ⟨by simp, by simpa using findInLevel_lt a nm i hf⟩
    | none =>
      rw [hf] at h
      cases hr : find_node_pos t nm with
      | none => rw [hr] at h; simp at h
      | some q =>
        rw [hr] at h
        simp only [Option.map_some] at h
        injection h with h2
        subst h2
        obtain ⟨h1, h2⟩ := ih q hr
        exact ⟨by simpa using h1, by simpa using h2⟩

theorem map_set_key (l : List SankeyNode) (i : ℕ) (f : SankeyNode → SankeyNode)
    (hf : ∀ n, nodeKey (f n) = nodeKey n) :
    (l.set i (f (l.getD i defaultSankeyNode))).map nodeKey = l.map nodeKey := by
  induction l generalizing i with
  | nil => rfl
  | cons a t ih =>
    cases i with
    | zero => simp [List.set, hf]
    | succ j =>
      simp only [List.set, List.getD_cons_succ, List.map_cons]
      rw [ih j]

theorem updateNode_keys (nodes : List (List SankeyNode)) (lv i : ℕ)
    (f : SankeyNode → SankeyNode) (hf : ∀ n, nodeKey (f n) = nodeKey n) :
    (updateNode nodes lv i f).map (fun l => l.map nodeKey)
      = nodes.map (fun l => l.map nodeKey) := by
  unfold updateNode
  induction nodes generalizing lv with
  | nil => rfl
  | cons a t ih =>
    cases lv with
    | zero =>
      simp only [List.getD_cons_zero, List.set]
      rw [List.map_cons, List.map_cons, map_set_key a i f hf]
    | succ l2 =>
      simp only [List.getD_cons_succ, List.set]
      rw [List.map_cons, List.map_cons, ih l2]

theorem getD_updateNode (nodes : List (List SankeyNode)) (lv i : ℕ)
    (f : SankeyNode → SankeyNode) (p : ℕ × ℕ) :
    ((updateNode nodes lv i f).getD p.1 []).getD p.2 defaultSankeyNode
      = if lv = p.1 ∧ p.1 < nodes.length ∧ i = p.2 ∧ p.2 < (nodes.getD lv []).length
        then f ((nodes.getD lv []).getD i defaultSankeyNode)
        else (nodes.getD p.1 []).getD p.2 defaultSankeyNode := by
  unfold updateNode
  rw [listGetD_set]
  by_cases h1 : lv = p.1 ∧ p.1 < nodes.length
  · rw [if_pos h1, listGetD_set]
    by_cases h2 : i = p.2 ∧ p.2 < (nodes.getD lv []).length
    · rw [if_pos h2, if_pos ⟨h1.1, h1.2, h2.1, h2.2⟩]
    · rw [if_neg h2, if_neg (by tauto), h1.1]
  · rw [if_neg h1, if_neg (by tauto)]

theorem updateNode_length (nodes : List (List SankeyNode)) (lv i : ℕ)
    (f : SankeyNode → SankeyNode) :
    (updateNode nodes lv i f).length = nodes.length := by
  unfold updateNode
  exact List.length_set nodes lv _

theorem updateNode_level_length (nodes : List (List SankeyNode)) (lv i : ℕ)
    (f : SankeyNode → SankeyNode) (l : ℕ) :
    ((updateNode nodes lv i f).getD l []).length = (nodes.getD l []).length := by
  unfold updateNode
  rw [listGetD_set]
  by_cases h1 : lv = l ∧ l < nodes.length
  · rw [if_pos h1, List.length_set, h1.1]
  · rw [if_neg h1]

theorem processOneFlow_ok (opts : SankeyOpts) (st : DiagramState) (f : FlowInput)
    (st2 : DiagramState) (ws : List String)
    (h : processOneFlow opts st f = Except.ok (st2, ws)) :
    ∃ sp dp fl,
      find_node_pos st.nodes f.src = some sp
      ∧ find_node_pos st.nodes f.des = some dp
      ∧ sp.1 < dp.1
      ∧ fl.value = f.value ∧ fl.src = sp ∧ fl.des = dp
      ∧ st2.flows = st.flows ++ [fl]
      ∧ st2.nodes = updateNode (updateNode st.nodes sp.1 sp.2
          (fun n => { n with outflows := n.outflows ++ [st.flows.length] })) dp.1 dp.2
          (fun n => { n with inflows := n.inflows ++ [st.flows.length] })
      ∧ ws = (if f.value > (nodeAt st sp).value ∨ f.value > (nodeAt st dp).value
              ∨ f.value < 0
          then ["Warning Bad flow - bad weight " ++ f.src ++ " " ++ f.des] else []) := by
  unfold processOneFlow at h
  cases hs : find_node_pos st.nodes f.src with
  | none => rw [hs] at h; exact Except.noConfusion h
  | some sp =>
    rw [hs] at h
    cases hd : find_node_pos st.nodes f.des with
    | none => rw [hd] at h; exact Except.noConfusion h
    | some dp =>
      rw [hd] at h
      simp only at h
      by_cases hb : dp.1 ≤ sp.1
      · rw [if_pos hb] at h
        exact Except.noConfusion h
      · rw [if_neg hb] at h
        cases hc : resolveFlowColor
            (match f.flowColorModeOpt with
              | some m => some m
              | none => opts.flow_color_mode) (nodeAt st sp) (nodeAt st dp) with
        | error e =>
          rw [hc, except_bind_error] at h
          exact Except.noConfusion h
        | ok c =>
          rw [hc, except_bind_ok] at h
          injection h with h2
          have hpair := congrArg Prod.fst h2
          have hws := congrArg Prod.snd h2
          simp only at hpair hws
          refine ⟨sp, dp,
            { value := f.value,
              color := (f.colorOpt).getD (applyAlpha c opts.flow_color_mode_alpha),
              src := sp, des := dp,
              src_i := (nodeAt st sp).outflows.length,
              des_i := (nodeAt st dp).inflows.length },
            rfl, rfl, by omega, rfl, rfl, rfl, ?_, ?_, ?_⟩
          · rw [← hpair]
          · rw [← hpair]
          · rw [← hws]

/-- Whether an Except value is a success. -/
def exceptIsOk : Except ε α → Bool
  | Except.ok _ => true
  | Except.error _ => false

theorem resolveFlowColor_some (m : String) (src des : SankeyNode) :
    ∃ c, resolveFlowColor (some m) src des = Except.ok c := by
  simp only [resolveFlowColor]
  split_ifs <;> exact ⟨_, rfl⟩

theorem processOneFlow_keys (opts : SankeyOpts) (st : DiagramState) (f : FlowInput)
    (st2 : DiagramState) (ws : List String)
    (h : processOneFlow opts st f = Except.ok (st2, ws)) :
    st2.nodes.map (fun l => l.map nodeKey) = st.nodes.map (fun l => l.map nodeKey) := by
  obtain ⟨sp, dp, fl, _, _, _, _, _, _, _, hn, _⟩ := processOneFlow_ok opts st f st2 ws h
  rw [hn]
  exact (updateNode_keys (updateNode st.nodes sp.1 sp.2
      (fun n => { n with outflows := n.outflows ++ [st.flows.length] })) dp.1 dp.2
      (fun n => { n with inflows := n.inflows ++ [st.flows.length] }) (fun n => rfl)).trans
    (updateNode_keys st.nodes sp.1 sp.2
      (fun n => { n with outflows := n.outflows ++ [st.flows.length] }) (fun n => rfl))

theorem processOneFlow_ok_of (opts : SankeyOpts) (st : DiagramState) (f : FlowInput)
    (sp dp : ℕ × ℕ)
    (hs : find_node_pos st.nodes f.src = some sp)
    (hd : find_node_pos st.nodes f.des = some dp)
    (hm : (match f.flowColorModeOpt with
        | some m => some m
        | none => opts.flow_color_mode).isSome = true)
    (hlt : sp.1 < dp.1) :
    ∃ r, processOneFlow opts st f = Except.ok r := by
  unfold processOneFlow
  rw [hs, hd]
  simp only
  rw [if_neg (by omega)]
  obtain ⟨m, hm2⟩ := Option.isSome_iff_exists.mp hm
  rw [hm2]
  obtain ⟨c, hc⟩ := resolveFlowColor_some m (nodeAt st sp) (nodeAt st dp)
  rw [hc, except_bind_ok]
  exact ⟨_, rfl⟩

theorem processOneFlow_backwards (opts : SankeyOpts) (st : DiagramState) (f : FlowInput)
    (sp dp : ℕ × ℕ)
    (hs : find_node_pos st.nodes f.src = some sp)
    (hd : find_node_pos st.nodes f.des = some dp)
    (hle : dp.1 ≤ sp.1) :
    ∃ e, processOneFlow opts st f = Except.error e := by
  unfold processOneFlow
  rw [hs, hd]
  simp only
  rw [if_pos hle]
  exact ⟨_, rfl⟩

/-- C7: raises-iff for the forward-flow invariant.  Given declared flows
whose endpoint names all resolve and whose effective flow color mode is
never the crashing None, the flow creation pass of Sankey.sankey succeeds
exactly when every declared flow goes to a strictly greater level than its
source; any flow with destination level at or before its source level
makes the pass abort with the backwards-flow ValueError. -/
theorem claim_C7 (opts : SankeyOpts) (st : DiagramState) (fs : List FlowInput)
    (hfind : ∀ f ∈ fs, (find_node_pos st.nodes f.src).isSome = true
        ∧ (find_node_pos st.nodes f.des).isSome = true)
    (hmode : ∀ f ∈ fs, (match f.flowColorModeOpt with
        | some m => some m
        | none => opts.flow_color_mode).isSome = true) :
    exceptIsOk (processFlows opts st fs) = true
    ↔ ∀ f ∈ fs, ∀ sp dp, find_node_pos st.nodes f.src = some sp →
        find_node_pos st.nodes f.des = some dp → sp.1 < dp.1 := by
  induction fs generalizing st with
  | nil =>
    constructor
    · intro _ f hf
      simp at hf
    · intro _
      rfl
  | cons f rest ih =>
    obtain ⟨hsf, hdf⟩ := hfind f (List.mem_cons_self f rest)
    obtain ⟨sp, hs⟩ := Option.isSome_iff_exists.mp hsf
    obtain ⟨dp, hd⟩ := Option.isSome_iff_exists.mp hdf
    by_cases hlt : sp.1 < dp.1
    · -- head flow is forward: the head step succeeds
      obtain ⟨⟨st1, ws⟩, hok⟩ := processOneFlow_ok_of opts st f sp dp hs hd
        (hmode f (List.mem_cons_self f rest)) hlt
      have hkeys := processOneFlow_keys opts st f st1 ws hok
      have hfcongr : ∀ nm, find_node_pos st1.nodes nm = find_node_pos st.nodes nm :=
        fun nm => find_node_pos_congr st1.nodes st.nodes hkeys nm
      have ihr := ih st1
        (fun g hg => by
          rw [hfcongr g.src, hfcongr g.des]
          exact hfind g (List.mem_cons_of_mem f hg))
        (fun g hg => hmode g (List.mem_cons_of_mem f hg))
      have hlhs : exceptIsOk (processFlows opts st (f :: rest))
          = exceptIsOk (processFlows opts st1 rest) := by
        simp only [processFlows]
        rw [hok, except_bind_ok]
        cases hr : processFlows opts st1 rest with
        | error e => rw [except_bind_error]
        | ok r =>
          obtain ⟨st2, wss⟩ := r
          rw [except_bind_ok]
          rfl
      rw [hlhs, ihr]
      constructor
      · intro hall g hg
        rcases List.mem_cons.mp hg with rfl | hg2
        · intro sp2 dp2 hs2 hd2
          rw [hs] at hs2
          rw [hd] at hd2
          injection hs2 with e1
          injection hd2 with e2
          subst e1
          subst e2
          exact hlt
        · intro sp2 dp2 hs2 hd2
          exact hall g hg2 sp2 dp2 (by rw [hfcongr g.src]; exact hs2)
            (by rw [hfcongr g.des]; exact hd2)
      · intro hall g hg sp2 dp2 hs2 hd2
        rw [hfcongr g.src] at hs2
        rw [hfcongr g.des] at hd2
        exact hall g (List.mem_cons_of_mem f hg) sp2 dp2 hs2 hd2
    · -- head flow is backwards: the pass errors and the right side fails at f
      obtain ⟨e, herr⟩ := processOneFlow_backwards opts st f sp dp hs hd (by omega)
      have hlhs : exceptIsOk (processFlows opts st (f :: rest)) = false := by
        simp only [processFlows]
        rw [herr, except_bind_error]
        rfl
      rw [hlhs]
      constructor
      · intro hcon
        exact Bool.noConfusion hcon
      · intro hall
        exact absurd (hall f (List.mem_cons_self f rest) sp dp hs hd) hlt

theorem claim_C7_witness :
    exceptIsOk (processFlows ({ } : SankeyOpts) stW6
      [{ src := "A", des := "B", value := (1 : ℚ) }]) = true := by
  have hA : find_node_pos stW6.nodes "A" = some (0, 0) := by decide
  have hB : find_node_pos stW6.nodes "B" = some (1, 0) := by decide
  refine (claim_C7 { } stW6 _ ?_ ?_).mpr ?_
  · intro f hf
    rw [List.mem_singleton] at hf
    subst hf
    exact ⟨by decide, by decide⟩
  · intro f hf
    rw [List.mem_singleton] at hf
    subst hf
    rfl
  · intro f hf sp dp hsp hdp
    rw [List.mem_singleton] at hf
    subst hf
    show sp.1 < dp.1
    have hsp2 : some (0, 0) = some sp := hA.symm.trans hsp
    have hdp2 : some (1, 0) = some dp := hB.symm.trans hdp
    injection hsp2 with e1
    injection hdp2 with e2
    rw [← e1, ← e2]
    decide

/-!  ## Data warning characterization (C9)  -/

theorem getD_map_key_inner (l1 l2 : List SankeyNode)
    (h : l1.map nodeKey = l2.map nodeKey) (i : ℕ) :
    nodeKey (l1.getD i defaultSankeyNode) = nodeKey (l2.getD i defaultSankeyNode) := by
  induction l1 generalizing l2 i with
  | nil =>
    cases l2 with
    | nil => rfl
    | cons b t => simp at h
  | cons a t ih =>
    cases l2 with
    | nil => simp at h
    | cons b t2 =>
      simp only [List.map_cons, List.cons.injEq] at h
      cases i with
      | zero => exact h.1
      | succ j => exact ih t2 h.2 j

theorem getD_map_key_outer (n1 n2 : List (List SankeyNode))
    (h : n1.map (fun l => l.map nodeKey) = n2.map (fun l => l.map nodeKey)) (l : ℕ) :
    (n1.getD l []).map nodeKey = (n2.getD l []).map nodeKey := by
  induction n1 generalizing n2 l with
  | nil =>
    cases n2 with
    | nil => rfl
    | cons b t => simp at h
  | cons a t ih =>
    cases n2 with
    | nil => simp at h
    | cons b t2 =>
      simp only [List.map_cons, List.cons.injEq] at h
      cases l with
      | zero => exact h.1
      | succ j => exact ih t2 h.2 j

theorem nodeAt_value_congr (st1 st : DiagramState)
    (h : st1.nodes.map (fun l => l.map nodeKey) = st.nodes.map (fun l => l.map nodeKey))
    (p : ℕ × ℕ) : (nodeAt st1 p).value = (nodeAt st p).value := by
  have := getD_map_key_inner _ _ (getD_map_key_outer st1.nodes st.nodes h p.1) p.2
  exact congrArg Prod.snd this

/-- The data warning the flow creation loop prints for one declared flow:
present exactly when the flow has a weight above either endpoint value or
below zero (and both endpoints resolve). -/
def flowWarn (st : DiagramState) (f : FlowInput) : List String :=
  match find_node_pos st.nodes f.src, find_node_pos st.nodes f.des with
  | some sp, some dp =>
    if f.value > (nodeAt st sp).value ∨ f.value > (nodeAt st dp).value ∨ f.value < 0 then
      ["Warning Bad flow - bad weight " ++ f.src ++ " " ++ f.des]
    else []
  | _, _ => []

theorem flowWarn_congr (st1 st : DiagramState)
    (h : st1.nodes.map (fun l => l.map nodeKey) = st.nodes.map (fun l => l.map nodeKey))
    (f : FlowInput) : flowWarn st1 f = flowWarn st f := by
  unfold flowWarn
  rw [find_node_pos_congr st1.nodes st.nodes h f.src,
    find_node_pos_congr st1.nodes st.nodes h f.des]
  cases find_node_pos st.nodes f.src with
  | none => rfl
  | some sp =>
    cases find_node_pos st.nodes f.des with
    | none => rfl
    | some dp =>
      simp only
      rw [nodeAt_value_congr st1 st h sp, nodeAt_value_congr st1 st h dp]

theorem processOneFlow_warn (opts : SankeyOpts) (st : DiagramState) (f : FlowInput)
    (st2 : DiagramState) (ws : List String)
    (h : processOneFlow opts st f = Except.ok (st2, ws)) : ws = flowWarn st f := by
  obtain ⟨sp, dp, fl, hs, hd, _, _, _, _, _, _, hws⟩ := processOneFlow_ok opts st f st2 ws h
  rw [hws]
  unfold flowWarn
  rw [hs, hd]

theorem processFlows_spec (opts : SankeyOpts) :
    ∀ (fs : List FlowInput) (st st2 : DiagramState) (ws : List String),
      processFlows opts st fs = Except.ok (st2, ws) →
      ws = (fs.map (flowWarn st)).flatten
      ∧ st2.flows.length = st.flows.length + fs.length := by
  intro fs
  induction fs with
  | nil =>
    intro st st2 ws h
    injection h with h2
    have h3 := congrArg Prod.fst h2
    have h4 := congrArg Prod.snd h2
    simp only at h3 h4
    subst h3
    exact ⟨h4.symm, by simp⟩
  | cons f rest ih =>
    intro st st2 ws h
    simp only [processFlows] at h
    cases hof : processOneFlow opts st f with
    | error e =>
      rw [hof, except_bind_error] at h
      exact Except.noConfusion h
    | ok r =>
      obtain ⟨st1, w1⟩ := r
      rw [hof, except_bind_ok] at h
      cases hrest : processFlows opts st1 rest with
      | error e =>
        rw [hrest, except_bind_error] at h
        exact Except.noConfusion h
      | ok r2 =>
        obtain ⟨st2b, wss⟩ := r2
        rw [hrest, except_bind_ok] at h
        injection h with h2
        have h3 := congrArg Prod.fst h2
        have h4 := congrArg Prod.snd h2
        simp only at h3 h4
        subst h3
        obtain ⟨ihw, ihl⟩ := ih st1 st2b wss hrest
        have hkeys := processOneFlow_keys opts st f st1 w1 hof
        have hmapeq : List.map (flowWarn st1) rest = List.map (flowWarn st) rest :=
          List.map_congr_left (fun g _ => flowWarn_congr st1 st hkeys g)
        constructor
        · rw [← h4, ihw, hmapeq, processOneFlow_warn opts st f st1 w1 hof]
          simp only [List.map_cons, List.flatten_cons]
        · obtain ⟨sp, dp, fl, _, _, _, _, _, _, hfl, _, _⟩ :=
            processOneFlow_ok opts st f st1 w1 hof
          rw [ihl, hfl]
          simp only [List.length_append, List.length_cons, List.length_nil]
          omega

theorem buildLevelNodes_spec (opts : SankeyOpts) (level : ℕ) :
    ∀ (nodes : List NodeInput) (ys : List (ℚ × ℚ)) (ic : ℕ),
      ys.length = nodes.length →
      (buildLevelNodes opts level nodes ys ic).1.map (fun sn => (sn.name, sn.value, sn.height))
        = List.zipWith (fun (n : NodeInput) (e : ℚ × ℚ) => (n.name, n.value, e.2)) nodes ys
      ∧ (buildLevelNodes opts level nodes ys ic).2.1
        = (nodes.filter (fun n => n.value < 0)).map
            (fun n => "Warning Node has value lt 0 " ++ n.name) := by
  intro nodes
  induction nodes with
  | nil =>
    intro ys ic _
    cases ys <;> exact ⟨rfl, rfl⟩
  | cons n rest ih =>
    intro ys ic hlen
    cases ys with
    | nil => simp at hlen
    | cons e ysRest =>
      obtain ⟨y, height⟩ := e
      have hlen2 : ysRest.length = rest.length := by
        simp only [List.length_cons] at hlen
        omega
      obtain ⟨ih1, ih2⟩ := ih ysRest (ic + 1) hlen2
      constructor
      · simp only [buildLevelNodes, List.map_cons, List.zipWith_cons_cons]
        rw [ih1]
      · simp only [buildLevelNodes, List.filter_cons]
        by_cases hv : n.value < 0
        · rw [if_pos hv, if_pos (show decide (n.value < 0) = true by simpa using hv)]
          simp only [List.singleton_append, List.map_cons]
          rw [ih2]
        · rw [if_neg hv, if_neg (show ¬ decide (n.value < 0) = true by simpa using hv)]
          simp only [List.nil_append]
          exact ih2

theorem zip_name_value_height (scale : ℚ) :
    ∀ (nodes : List NodeInput) (ys : List (ℚ × ℚ)),
      ys.map Prod.snd = nodes.map (fun n => n.value / scale) →
      List.zipWith (fun (n : NodeInput) (e : ℚ × ℚ) => (n.name, n.value, e.2)) nodes ys
        = nodes.map (fun n => (n.name, n.value, n.value / scale)) := by
  intro nodes
  induction nodes with
  | nil =>
    intro ys _
    cases ys <;> rfl
  | cons n rest ih =>
    intro ys h
    cases ys with
    | nil => simp at h
    | cons e ys2 =>
      simp only [List.map_cons, List.cons.injEq] at h
      simp only [List.zipWith_cons_cons, List.map_cons]
      rw [h.1, ih ys2 h.2]

theorem buildNodesAux_top_spec (opts : SankeyOpts) (scale : ℚ)
    (halign : opts.align_y = "top") :
    ∀ (levels : List (List NodeInput)) (level ic : ℕ),
      ∃ nss ws, buildNodesAux opts scale levels level ic = Except.ok (nss, ws)
        ∧ ws = (levels.flatten.filter (fun n => n.value < 0)).map
            (fun n => "Warning Node has value lt 0 " ++ n.name)
        ∧ ∀ lv, (nss.getD lv []).map (fun sn => (sn.name, sn.value, sn.height))
            = (levels.getD lv []).map (fun n => (n.name, n.value, n.value / scale)) := by
  intro levels
  induction levels with
  | nil =>
    intro level ic
    exact ⟨[], [], rfl, by simp, fun lv => by simp⟩
  | cons lvl rest ih =>
    intro level ic
    set pad := min (level_node_max_padding opts lvl scale)
      (max opts.node_pad_y_max opts.node_pad_y_min) with hpad
    set ys := topPass opts.node_height_pad_min pad scale lvl 1 with hys
    have hlen : ys.length = lvl.length := topPass_length _ _ _ _ _
    have hsnd : ys.map Prod.snd = lvl.map (fun n => n.value / scale) :=
      topPass_map_snd _ _ _ _ _
    obtain ⟨h1, h2⟩ := buildLevelNodes_spec opts level lvl ys ic hlen
    obtain ⟨nss, ws, hrec, hws, hlv⟩ := ih (level + 1) (buildLevelNodes opts level lvl ys ic).2.2
    refine ⟨(buildLevelNodes opts level lvl ys ic).1 :: nss,
      (buildLevelNodes opts level lvl ys ic).2.1 ++ ws, ?_, ?_, ?_⟩
    · simp only [buildNodesAux]
      rw [get_node_ys_top opts lvl scale halign, except_bind_ok, ← hpad, ← hys]
      rw [show (buildLevelNodes opts level lvl ys ic)
          = ((buildLevelNodes opts level lvl ys ic).1,
             (buildLevelNodes opts level lvl ys ic).2.1,
             (buildLevelNodes opts level lvl ys ic).2.2) from rfl]
      rw [hrec, except_bind_ok]
    · rw [h2, hws]
      simp only [List.flatten_cons, List.filter_append, List.map_append]
    · intro lv
      cases lv with
      | zero =>
        simp only [List.getD_cons_zero]
        rw [h1, zip_name_value_height scale lvl ys hsnd]
      | succ lv2 =>
        simp only [List.getD_cons_succ]
        exact hlv lv2

/-- C9 (amended): data warnings are surfaced and the layout proceeds with
the given values.  Node side: under top alignment the node creation pass
always succeeds, its warning list has exactly one entry per node with
strictly negative declared value, and every node is built with its
declared value and the height value / scale unchanged.  Flow side:
whenever the flow creation pass returns, its warning list is exactly the
concatenation of the per-flow bad-weight warnings (weight above either
endpoint value or negative) and the flow arena still grew by one flow per
declared flow.  The source checks value < 0, not value <= 0: a node of
declared value exactly 0 is not warned about, which is what forces the
amendment, see the counterexample. -/
theorem claim_C9 :
    (∀ (opts : SankeyOpts) (scale : ℚ) (levels : List (List NodeInput)),
      opts.align_y = "top" →
      ∃ nss ws, buildNodes opts levels scale = Except.ok (nss, ws)
        ∧ ws = (levels.flatten.filter (fun n => n.value < 0)).map
            (fun n => "Warning Node has value lt 0 " ++ n.name)
        ∧ ∀ lv, (nss.getD lv []).map (fun sn => (sn.name, sn.value, sn.height))
            = (levels.getD lv []).map (fun n => (n.name, n.value, n.value / scale)))
    ∧ (∀ (opts : SankeyOpts) (fs : List FlowInput) (st st2 : DiagramState)
        (ws : List String),
      processFlows opts st fs = Except.ok (st2, ws) →
      ws = (fs.map (flowWarn st)).flatten
      ∧ st2.flows.length = st.flows.length + fs.length) := by
  constructor
  · intro opts scale levels halign
    exact buildNodesAux_top_spec opts scale halign levels 0 0
  · intro opts fs st st2 ws h
    exact processFlows_spec opts fs st st2 ws h

/-- The node built from the zero-value declared node of the C9
counterexample. -/
def nodeW9c : SankeyNode :=
  { x := 0, y := 1, width := 3/100, height := 0, name := "a", value := 0,
    color := ⟨1, 0, 0, 1⟩ }

/-- C9 counterexample: a node declared with value exactly 0 is
non-positive, yet the node creation pass emits no warning at all (the
source only checks value < 0), so the claim as stated is false. -/
theorem claim_C9_counterexample :
    buildNodes { align_y := "top" } [[{ name := "a", value := 0 }]] 1
      = Except.ok ([[nodeW9c]], [])
    ∧ ((0 : ℚ) ≤ 0) := by
  constructor
  · norm_num [buildNodes, buildNodesAux, buildLevelNodes, get_node_ys,
      level_node_max_padding, topPass, except_bind_ok, nodeW9c,
      show (("top" : String) = "center") = False by simp,
      show (("top" : String) = "justify") = False by simp,
      show (("top" : String) = "bottom") = False by simp]
  · norm_num

theorem strContains_dest_dest : strContains "dest" "dest" = true := by decide

/-- The state after the C9 witness run: the bad-weight flow was still
created and attached to both endpoints. -/
def stW9res : DiagramState :=
  { nodes := [[{ nodeWA with outflows := [0] }], [{ nodeWB with inflows := [0] }]],
    flows := [{ value := 5, curvature := 3/10, color := ⟨2/3, 2/3, 2/3, 3/5⟩,
                src := (0, 0), des := (1, 0), src_i := 0, des_i := 0 }] }

theorem claim_C9_witness :
    processFlows ({ } : SankeyOpts) stW6 [{ src := "A", des := "B", value := 5 }]
      = Except.ok (stW9res, ["Warning Bad flow - bad weight A B"])
    ∧ ["Warning Bad flow - bad weight A B"]
      = (([{ src := "A", des := "B", value := (5 : ℚ) }] : List FlowInput).map
          (flowWarn stW6)).flatten
    ∧ stW9res.flows.length = stW6.flows.length
        + ([{ src := "A", des := "B", value := (5 : ℚ) }] : List FlowInput).length := by
  have hok : processFlows ({ } : SankeyOpts) stW6 [{ src := "A", des := "B", value := 5 }]
      = Except.ok (stW9res, ["Warning Bad flow - bad weight A B"]) := by
    have hA : find_node_pos [[nodeWA], [nodeWB]] "A" = some (0, 0) := by decide
    have hB : find_node_pos [[nodeWA], [nodeWB]] "B" = some (1, 0) := by decide
    have hna : nodeAt stW6 (0, 0) = nodeWA := rfl
    have hnb : nodeAt stW6 (1, 0) = nodeWB := rfl
    norm_num [processFlows, processOneFlow, hA, hB, hna, hnb, resolveFlowColor,
      strContains_dest_dest, applyAlpha, except_bind_ok, except_bind_error,
      updateNode, List.set, stW9res,
      show stW6.nodes = [[nodeWA], [nodeWB]] from rfl,
      show stW6.flows = [] from rfl,
      show nodeWA.value = 1 from rfl, show nodeWB.value = 1 from rfl,
      show nodeWA.outflows = [] from rfl, show nodeWB.inflows = [] from rfl,
      show nodeWB.color = defaultRGBA from rfl, defaultRGBA,
      show (nodeAt stW6 (0, 0)).outflows = ([] : List ℕ) from rfl,
      show (nodeAt stW6 (0 : ℕ × ℕ)).outflows = ([] : List ℕ) from rfl,
      show (nodeAt stW6 (1, 0)).inflows = ([] : List ℕ) from rfl,
      show "Warning Bad flow - bad weight " ++ "A" ++ " " ++ "B"
        = "Warning Bad flow - bad weight A B" from by decide]
  obtain ⟨hw, hl⟩ := claim_C9.2 { } [{ src := "A", des := "B", value := (5 : ℚ) }]
    stW6 stW9res ["Warning Bad flow - bad weight A B"] hok
  exact ⟨hok, hw, hl⟩

/-- C5: flow order is construction order.  Append part: every successful
step of the flow creation loop appends the new flow at the end of the
flow arena and appends its index at the end of the source node outflow
list and of the destination node inflow list, so repeated steps keep
declaration order on every node side.  Stacking part: under "top"
alignment the first flow of a side starts exactly at the node top, the
top of flow i+1 sits exactly one allocated height plus one padding below
the top of flow i (it equals the bottom of flow i minus the padding), and
when flow i has positive value, the padding is nonnegative and the value
scale is positive, flow i+1 starts strictly below flow i. -/
theorem claim_C5 :
    (∀ (opts : SankeyOpts) (st : DiagramState) (f : FlowInput) (st2 : DiagramState)
        (ws : List String),
      processOneFlow opts st f = Except.ok (st2, ws) →
      ∃ sp dp fl,
        find_node_pos st.nodes f.src = some sp
        ∧ find_node_pos st.nodes f.des = some dp
        ∧ fl.value = f.value ∧ fl.src = sp ∧ fl.des = dp
        ∧ st2.flows = st.flows ++ [fl]
        ∧ (nodeAt st2 sp).outflows = (nodeAt st sp).outflows ++ [st.flows.length]
        ∧ (nodeAt st2 dp).inflows = (nodeAt st dp).inflows ++ [st.flows.length])
    ∧ (∀ (n : SankeyNode) (vals : List ℚ), n.align_y = "top" →
        get_flow_y n vals 0 = Except.ok
          (n.y + n.height
            - vals.getD 0 0 / (n.value / (n.height - n.flow_pad * ((vals.length : ℚ) - 1))),
           n.y + n.height))
    ∧ (∀ (n : SankeyNode) (vals : List ℚ) (i : ℕ) (y0 y1 y0n y1n : ℚ),
        n.align_y = "top" → i < vals.length →
        get_flow_y n vals i = Except.ok (y0, y1) →
        get_flow_y n vals (i + 1) = Except.ok (y0n, y1n) →
        y1n = y0 - n.flow_pad
        ∧ (0 ≤ n.flow_pad → 0 < vals.getD i 0 →
            0 < n.value / (n.height - n.flow_pad * ((vals.length : ℚ) - 1)) →
            y1n < y1)) := by
  refine ⟨?_, ?_, ?_⟩
  · intro opts st f st2 ws h
    obtain ⟨sp, dp, fl, hs, hd, hlt, hv, hsp, hdp, hfl, hn, hws⟩ :=
      processOneFlow_ok opts st f st2 ws h
    obtain ⟨hsl, hsi⟩ := find_node_pos_lt st.nodes f.src sp hs
    obtain ⟨hdl, hdi⟩ := find_node_pos_lt st.nodes f.des dp hd
    refine ⟨sp, dp, fl, hs, hd, hv, hsp, hdp, hfl, ?_, ?_⟩
    · have h1 : nodeAt st2 sp
          = { nodeAt st sp with outflows := (nodeAt st sp).outflows ++ [st.flows.length] } := by
        show (st2.nodes.getD sp.1 []).getD sp.2 defaultSankeyNode = _
        rw [hn, getD_updateNode, if_neg (by rintro ⟨hc, -⟩; omega), getD_updateNode,
          if_pos ⟨rfl, hsl, rfl, hsi⟩]
        rfl
      rw [h1]
    · have h2 : nodeAt st2 dp
          = { nodeAt st dp with inflows := (nodeAt st dp).inflows ++ [st.flows.length] } := by
        show (st2.nodes.getD dp.1 []).getD dp.2 defaultSankeyNode = _
        rw [hn, getD_updateNode]
        rw [if_pos ⟨rfl, by rw [updateNode_length]; exact hdl, rfl,
          by rw [updateNode_level_length]; exact hdi⟩]
        rw [getD_updateNode, if_neg (by rintro ⟨hc, -⟩; omega)]
        rfl
      rw [h2]
  · intro n vals halign
    rw [get_flow_y_top n vals 0 halign]
    norm_num
  · intro n vals i y0 y1 y0n y1n halign hi h1 h2
    rw [get_flow_y_top n vals i halign] at h1
    rw [get_flow_y_top n vals (i + 1) halign] at h2
    injection h1 with h1
    injection h2 with h2
    rw [Prod.mk.injEq] at h1 h2
    obtain ⟨hy0, hy1⟩ := h1
    obtain ⟨hy0n, hy1n⟩ := h2
    subst hy0 hy1 hy0n hy1n
    have hts := take_sum_succ vals i hi
    have hcast : ((i + 1 : ℕ) : ℚ) = (i : ℚ) + 1 := by push_cast; ring
    constructor
    · rw [hts, add_div, hcast]
      ring
    · intro hpad hv hscale
      have hpos : 0 < vals.getD i 0
          / (n.value / (n.height - n.flow_pad * ((vals.length : ℚ) - 1))) :=
        div_pos hv hscale
      rw [hts, add_div, hcast]
      have hexp : n.flow_pad * ((i : ℚ) + 1) = n.flow_pad * (i : ℚ) + n.flow_pad := by ring
      rw [hexp]
      linarith

/-- Witness node for the stacking part: value 10, height 1, default top
alignment and zero inter-flow padding, with side flow values 4 and 6. -/
def nodeW5 : SankeyNode :=
  { x := 0, y := 0, width := 3/100, height := 1, name := "A", value := 10,
    color := defaultRGBA }

theorem claim_C5_witness :
    (∃ sp dp fl,
      find_node_pos stW6.nodes "A" = some sp
      ∧ find_node_pos stW6.nodes "B" = some dp
      ∧ fl.value = (5 : ℚ) ∧ fl.src = sp ∧ fl.des = dp
      ∧ stW9res.flows = stW6.flows ++ [fl]
      ∧ (nodeAt stW9res sp).outflows = (nodeAt stW6 sp).outflows ++ [stW6.flows.length]
      ∧ (nodeAt stW9res dp).inflows = (nodeAt stW6 dp).inflows ++ [stW6.flows.length])
    ∧ get_flow_y nodeW5 [4, 6] 0 = Except.ok (3/5, 1)
    ∧ get_flow_y nodeW5 [4, 6] 1 = Except.ok (0, 3/5)
    ∧ (3 : ℚ)/5 = 3/5 - nodeW5.flow_pad
    ∧ (3 : ℚ)/5 < 1 := by
  have hok : processOneFlow ({ } : SankeyOpts) stW6 { src := "A", des := "B", value := 5 }
      = Except.ok (stW9res, ["Warning Bad flow - bad weight A B"]) := by
    have hA : find_node_pos [[nodeWA], [nodeWB]] "A" = some (0, 0) := by decide
    have hB : find_node_pos [[nodeWA], [nodeWB]] "B" = some (1, 0) := by decide
    have hna : nodeAt stW6 (0, 0) = nodeWA := rfl
    have hnb : nodeAt stW6 (1, 0) = nodeWB := rfl
    norm_num [processOneFlow, hA, hB, hna, hnb, resolveFlowColor,
      strContains_dest_dest, applyAlpha, except_bind_ok, except_bind_error,
      updateNode, List.set, stW9res,
      show stW6.nodes = [[nodeWA], [nodeWB]] from rfl,
      show stW6.flows = [] from rfl,
      show nodeWA.value = 1 from rfl, show nodeWB.value = 1 from rfl,
      show nodeWA.outflows = [] from rfl, show nodeWB.inflows = [] from rfl,
      show nodeWB.color = defaultRGBA from rfl, defaultRGBA,
      show (nodeAt stW6 (0, 0)).outflows = ([] : List ℕ) from rfl,
      show (nodeAt stW6 (0 : ℕ × ℕ)).outflows = ([] : List ℕ) from rfl,
      show (nodeAt stW6 (1, 0)).inflows = ([] : List ℕ) from rfl,
      show "Warning Bad flow - bad weight " ++ "A" ++ " " ++ "B"
        = "Warning Bad flow - bad weight A B" from by decide]
  have h0 : get_flow_y nodeW5 [4, 6] 0 = Except.ok (3/5, 1) :=
    (claim_C5.2.1 nodeW5 [4, 6] rfl).trans (by norm_num [nodeW5, List.getD])
  have h1 : get_flow_y nodeW5 [4, 6] 1 = Except.ok (0, 3/5) := by
    rw [get_flow_y_top nodeW5 [4, 6] 1 rfl]
    norm_num [nodeW5, List.getD]
  have h3 := claim_C5.2.2 nodeW5 [4, 6] 0 (3/5) 1 0 (3/5) rfl (by norm_num) h0 h1
  exact ⟨claim_C5.1 { } stW6 { src := "A", des := "B", value := 5 } stW9res
      ["Warning Bad flow - bad weight A B"] hok,
    h0, h1, h3.1,
    h3.2 (by norm_num [nodeW5]) (by norm_num [List.getD]) (by norm_num [nodeW5])⟩
